import Mathlib

/-!
Verification development for the function-matching core of the rust_diff
binary-diffing plugin (`src/__init__.py`).

The embedding covers:
* the similarity scorer `_calculate_similarity_original` (lines 374-548),
  with its sub-similarities `_calculate_histogram_similarity` (550-571),
  `_calculate_set_similarity` (573-581), `_calculate_prime_similarity`
  (583-628);
* the feature-to-dict wrapper `_calculate_similarity` (324-372);
* the three-phase matcher `_match_functions` (244-322);
* the result conversion in `BinaryDiffTask.run` (76-100) together with
  `_get_match_technique` (630-633).

Python floats are modelled by real numbers.  The ambient randomness of
`random.uniform(-0.001, 0.001)` (line 530) is made explicit: the scorer
takes the drawn jitter value as an argument, and the matcher takes a
stream `ℕ → ℝ` of jitter values, consumed one per scorer call.

Python dictionaries passed to the scorer are modelled twice, connected by
a bridge lemma:
* `PyFunc` has `Option`-valued fields for the keys the source reads with
  `d[key]` (which raises `KeyError` when absent); the scorer body
  `calculate_similarity_original_body` runs in `Except Unit` so that a
  missing key aborts the computation, and `calculate_similarity_original`
  is the `try/except` wrapper of lines 380/546-548 mapping any such error
  to `(0.0, "Error")`.
* `FuncRec` is the well-formed record (every key present); `toPy` embeds
  it into `PyFunc`, and `similarity_parts` is the pure score/weight/
  technique accumulation that the monadic body reduces to on well-formed
  input (`body_toPy`).

Dictionary iteration order is Python insertion order, so feature mappings
are association lists `List (ℕ × Feat)`; key uniqueness (a dict
invariant) is an explicit hypothesis where it matters.
-/

namespace RustDiff

noncomputable section

/-- Accumulator of `_calculate_similarity_original`: the running `score`,
`total_weight`, and the insertion-ordered `technique_scores` dict. -/
structure SimState where
  score : ℝ
  weight : ℝ
  techs : List (String × ℝ)

/-- The ratio similarity `1.0 - min(1.0, abs(a-b) / max(1, max(a, b)))` used
throughout the scorer for integer counts. -/
def int_ratio_sim (a b : ℤ) : ℝ :=
  1 - min 1 (((|a - b| : ℤ) : ℝ) / ((max 1 (max a b) : ℤ) : ℝ))

/-- `_calculate_set_similarity` (lines 573-581): Jaccard similarity, with
`1.0` for two empty sets and `0.0` when the union is empty otherwise. -/
def calculate_set_similarity {α : Type} [DecidableEq α] (s1 s2 : Finset α) : ℝ :=
  if s1 = ∅ ∧ s2 = ∅ then 1
  else
    let intersection := (s1 ∩ s2).card
    let union := (s1 ∪ s2).card
    if 0 < union then (intersection : ℝ) / (union : ℝ) else 0

/-- Keys of a histogram (Python `dict.keys()` of an opcode→count mapping). -/
def histKeys (m : List (String × ℤ)) : Finset String :=
  (m.map Prod.fst).toFinset

/-- `hist.get(key, 0)` on an insertion-ordered histogram. -/
def histGet (m : List (String × ℤ)) (k : String) : ℤ :=
  (m.lookup k).getD 0

/-- Sum of squared counts of one histogram over its own keys (the value of
Python's `mag` accumulation before the square root). -/
def histMagSq (m : List (String × ℤ)) : ℤ :=
  Finset.sum (histKeys m) (fun k => histGet m k * histGet m k)

/-- `_calculate_histogram_similarity` (lines 550-571): cosine similarity over
the union of the two key sets; `0.0` if either magnitude is zero, which in
particular makes the value `0.0` (not `1.0`) when both histograms are
empty. -/
def calculate_histogram_similarity (m1 m2 : List (String × ℤ)) : ℝ :=
  let allKeys := histKeys m1 ∪ histKeys m2
  let dot : ℤ := Finset.sum allKeys (fun k => histGet m1 k * histGet m2 k)
  let mag1 : ℝ := Real.sqrt ((Finset.sum allKeys (fun k => histGet m1 k * histGet m1 k) : ℤ) : ℝ)
  let mag2 : ℝ := Real.sqrt ((Finset.sum allKeys (fun k => histGet m2 k * histGet m2 k) : ℤ) : ℝ)
  if mag1 = 0 ∨ mag2 = 0 then 0 else (dot : ℝ) / (mag1 * mag2)

/-- `_calculate_prime_similarity` (lines 583-628): blend of Jaccard, length
ratio and product-of-first-5 ratio. -/
def calculate_prime_similarity (p1 p2 : List ℤ) : ℝ :=
  if p1 = [] ∧ p2 = [] then 1
  else if p1 = [] ∨ p2 = [] then 0
  else
    let jaccardSim := calculate_set_similarity p1.toFinset p2.toFinset
    let ratioSim : ℝ :=
      1 - min 1 ((|(p1.length : ℤ) - (p2.length : ℤ)| : ℤ) / ((max p1.length p2.length : ℕ) : ℝ))
    let maxPrimes := min 5 (min p1.length p2.length)
    let product1 := (p1.take maxPrimes).prod
    let product2 := (p2.take maxPrimes).prod
    let productSim : ℝ :=
      if product1 = product2 then 1
      else if product1 = 0 ∨ product2 = 0 then 0
      else ((min product1 product2 : ℤ) : ℝ) / ((max product1 product2 : ℤ) : ℝ)
    min 1 (max 0 (0.5 * jaccardSim + 0.3 * ratioSim + 0.2 * productSim))

/-- The `callgraph` sub-dictionary built by `_calculate_similarity`. -/
structure CallGraph where
  call_count : ℤ
  caller_count : ℤ
deriving Repr, DecidableEq

/-- The `control_flow` sub-dictionary; fields are optional because the
scorer probes them with `"node_count" in cf1` etc. (lines 462-478). -/
structure ControlFlow where
  node_count : Option ℤ
  density : Option ℝ
  is_connected : Option Bool

/-- Hash category (lines 381-386): weight 10, always applicable. -/
def cat_hash (h1 h2 : ℤ) (st : SimState) : SimState :=
  let hashSim : ℝ := if h1 = h2 then 1 else 0
  ⟨st.score + 10 * hashSim, st.weight + 10, st.techs ++ [("Hash Match", 10 * hashSim)]⟩

/-- Count-ratio categories (basic blocks lines 388-395, instructions
397-404, edges 406-413): applicable when both counts are positive. -/
def cat_count (label : String) (w : ℝ) (c1 c2 : ℤ) (st : SimState) : SimState :=
  if 0 < c1 ∧ 0 < c2 then
    ⟨st.score + w * int_ratio_sim c1 c2, st.weight + w,
      st.techs ++ [(label, w * int_ratio_sim c1 c2)]⟩
  else st

/-- Mnemonic-histogram category (lines 415-421): weight 8, applicable when
both histograms are non-empty (Python truthiness of the dicts). -/
def cat_hist (m1 m2 : List (String × ℤ)) (st : SimState) : SimState :=
  if m1 ≠ [] ∧ m2 ≠ [] then
    ⟨st.score + 8 * calculate_histogram_similarity m1 m2, st.weight + 8,
      st.techs ++ [("Mnemonic Histogram", 8 * calculate_histogram_similarity m1 m2)]⟩
  else st

/-- String-reference category (lines 423-432): weight 7, boosted to 12 when
the Jaccard similarity exceeds 0.8. -/
def cat_strings (s1 s2 : List String) (st : SimState) : SimState :=
  if s1 ≠ [] ∧ s2 ≠ [] then
    let strSim := calculate_set_similarity s1.toFinset s2.toFinset
    let w : ℝ := if strSim > 0.8 then 12 else 7
    ⟨st.score + w * strSim, st.weight + w, st.techs ++ [("String References", w * strSim)]⟩
  else st

/-- Callgraph category (lines 434-452): two weight-5 ratio comparisons when
at least one call count is positive; the `technique_scores["Callgraph"]`
entry is recorded unconditionally (line 452). -/
def cat_callgraph (c1 c2 : Option CallGraph) (st : SimState) : SimState :=
  match c1, c2 with
  | some g1, some g2 =>
    if 0 < g1.call_count ∨ 0 < g2.call_count then
      let callSim := int_ratio_sim g1.call_count g2.call_count
      let callerSim := int_ratio_sim g1.caller_count g2.caller_count
      ⟨st.score + 5 * callSim + 5 * callerSim, st.weight + 5 + 5,
        st.techs ++ [("Callgraph", 5 * callSim + 5 * callerSim)]⟩
    else ⟨st.score, st.weight, st.techs ++ [("Callgraph", 0)]⟩
  | _, _ => ⟨st.score, st.weight, st.techs ++ [("Callgraph", 0)]⟩

/-- Node-count comparison of the control-flow category (lines 462-467). -/
def cf_node_part (o1 o2 : Option ℤ) : ℝ :=
  match o1, o2 with
  | some n1, some n2 => if 0 < n1 ∧ 0 < n2 then 4 * int_ratio_sim n1 n2 else 0
  | _, _ => 0

/-- Weight contributed by the node-count comparison. -/
def cf_node_weight (o1 o2 : Option ℤ) : ℝ :=
  match o1, o2 with
  | some n1, some n2 => if 0 < n1 ∧ 0 < n2 then 4 else 0
  | _, _ => 0

/-- Density comparison of the control-flow category (lines 470-475). -/
def cf_dens_part (o1 o2 : Option ℝ) : ℝ :=
  match o1, o2 with
  | some d1, some d2 => 4 * (1 - min 1 (|d1 - d2| / max 0.001 (max d1 d2)))
  | _, _ => 0

/-- Weight contributed by the density comparison. -/
def cf_dens_weight (o1 o2 : Option ℝ) : ℝ :=
  match o1, o2 with
  | some _, some _ => 4
  | _, _ => 0

/-- Connectivity comparison of the control-flow category (lines 477-482):
the score bonus needs agreement, the weight is charged on presence alone. -/
def cf_conn_part (o1 o2 : Option Bool) : ℝ :=
  match o1, o2 with
  | some b1, some b2 => if b1 = b2 then 4 else 0
  | _, _ => 0

/-- Weight contributed by the connectivity comparison. -/
def cf_conn_weight (o1 o2 : Option Bool) : ℝ :=
  match o1, o2 with
  | some _, some _ => 4
  | _, _ => 0

/-- Control-flow category (lines 454-483): node-count ratio, density ratio
(denominator floored at 0.001) and a full-weight connectivity bonus, each
weight 4; `technique_scores["Control Flow"]` is recorded unconditionally
(line 483). -/
def cat_control_flow (c1 c2 : Option ControlFlow) (st : SimState) : SimState :=
  match c1, c2 with
  | some f1, some f2 =>
    let cfScore := cf_node_part f1.node_count f2.node_count +
      cf_dens_part f1.density f2.density + cf_conn_part f1.is_connected f2.is_connected
    let cfWeight := cf_node_weight f1.node_count f2.node_count +
      cf_dens_weight f1.density f2.density + cf_conn_weight f1.is_connected f2.is_connected
    ⟨st.score + cfScore, st.weight + cfWeight, st.techs ++ [("Control Flow", cfScore)]⟩
  | _, _ => ⟨st.score, st.weight, st.techs ++ [("Control Flow", 0)]⟩

/-- Numeric-constant category (lines 485-496): Jaccard over constants below
65536, applicable when the raw lists are truthy and some filtered constant
remains. -/
def cat_consts (l1 l2 : List ℤ) (st : SimState) : SimState :=
  if l1 ≠ [] ∧ l2 ≠ [] then
    let c1 := (l1.filter (fun x => x < 65536)).toFinset
    let c2 := (l2.filter (fun x => x < 65536)).toFinset
    if c1 ≠ ∅ ∨ c2 ≠ ∅ then
      ⟨st.score + 3 * calculate_set_similarity c1 c2, st.weight + 3,
        st.techs ++ [("Numeric Constants", 3 * calculate_set_similarity c1 c2)]⟩
    else st
  else st

/-- Prime-signature category (lines 498-504): weight 6. -/
def cat_primes (p1 p2 : List ℤ) (st : SimState) : SimState :=
  if p1 ≠ [] ∧ p2 ≠ [] then
    ⟨st.score + 6 * calculate_prime_similarity p1 p2, st.weight + 6,
      st.techs ++ [("Prime Features", 6 * calculate_prime_similarity p1 p2)]⟩
  else st

/-- Python strings are manipulated character-wise here (`.lower()`,
`.startswith(...)`, slicing), so names operate on the character list of a
`String`; `str.lower()` lowers each character. -/
def str_lower (n : List Char) : List Char :=
  n.map Char.toLower

/-- The synthetic-name markers stripped before name comparison (line 512). -/
def syntheticMarkers : List (List Char) :=
  ["sub_".data, "fcn_".data, "fcn.".data, "function_".data, "func_".data, "f_".data]

/-- The stripping loop of lines 513-517, applied to one lowered name:
`name[len(marker):]` whenever the current name starts with the marker. -/
def stripSynthetic (n : List Char) : List Char :=
  syntheticMarkers.foldl (fun s p => if p.isPrefixOf s then s.drop p.length else s) n

/-- Name category (lines 506-524): weight 1, skipped when both stripped
names look like bare hex addresses. -/
def cat_name (n1 n2 : String) (st : SimState) : SimState :=
  let m1 := stripSynthetic (str_lower n1.data)
  let m2 := stripSynthetic (str_lower n2.data)
  if ¬(List.isPrefixOf "0x".data m1 ∧ List.isPrefixOf "0x".data m2) then
    let nameSim : ℝ := if m1 = m2 then 1 else 0
    ⟨st.score + 1 * nameSim, st.weight + 1, st.techs ++ [("Name Similarity", 1 * nameSim)]⟩
  else st

/-- Python `max(technique_scores, key=technique_scores.get)`: the first key
attaining the maximal value, via a left fold keeping strict improvements. -/
def firstArgmax (t : String × ℝ) (rest : List (String × ℝ)) : String × ℝ :=
  rest.foldl (fun b p => if p.2 > b.2 then p else b) t

/-- Dominant-technique selection (lines 533-543): the first key with the
single highest contribution, overridden to `"Hash Match"` when that entry
reached its full weight 10; `"Mixed"` when nothing contributed. -/
def dominant_technique (ts : List (String × ℝ)) : String :=
  match ts with
  | [] => "Mixed"
  | t :: rest =>
    let maxScore := rest.foldl (fun m p => max m p.2) t.2
    if maxScore > 0 then
      if 10 ≤ ((ts.lookup "Hash Match").getD 0) then "Hash Match"
      else (firstArgmax t rest).1
    else "Mixed"

/-- Final normalisation (lines 526-543): divide by the total weight (0.0 if
no weight), add the drawn jitter, clamp to [0,1], pick the dominant
technique. -/
def finalize_score (j : ℝ) (st : SimState) : ℝ × String :=
  let final0 : ℝ := if 0 < st.weight then st.score / st.weight else 0
  (max 0 (min 1 (final0 + j)), dominant_technique st.techs)

/-- A well-formed scorer input: every key of the dictionaries built by
`_calculate_similarity` (lines 328-354) is present. -/
structure FuncRec where
  function_hash : ℤ
  basic_block_count : ℤ
  instruction_count : ℤ
  edge_count : ℤ
  mnemonic_hist : List (String × ℤ)
  string_refs : List String
  callgraph : Option CallGraph
  control_flow : Option ControlFlow
  numeric_consts : List ℤ
  function_primes : List ℤ
  name : String

/-- The pure score/weight/technique accumulation of
`_calculate_similarity_original` on a well-formed input, category by
category in source order. -/
def similarity_parts (r1 r2 : FuncRec) : SimState :=
  let st := cat_hash r1.function_hash r2.function_hash ⟨0, 0, []⟩
  let st := cat_count "Basic Block Count" 2 r1.basic_block_count r2.basic_block_count st
  let st := cat_count "Instruction Count" 2 r1.instruction_count r2.instruction_count st
  let st := cat_count "Edge Count" 1.5 r1.edge_count r2.edge_count st
  let st := cat_hist r1.mnemonic_hist r2.mnemonic_hist st
  let st := cat_strings r1.string_refs r2.string_refs st
  let st := cat_callgraph r1.callgraph r2.callgraph st
  let st := cat_control_flow r1.control_flow r2.control_flow st
  let st := cat_consts r1.numeric_consts r2.numeric_consts st
  let st := cat_primes r1.function_primes r2.function_primes st
  cat_name r1.name r2.name st

/-- A Python dict handed to `_calculate_similarity_original`: the keys read
with `d[key]` (raising `KeyError` when absent) are `Option`-valued, the
keys read with `d.get(key)` collapse "absent" and "falsy" into `none`
respectively `[]`. -/
structure PyFunc where
  function_hash : Option ℤ
  basic_block_count : Option ℤ
  instruction_count : Option ℤ
  edge_count : Option ℤ
  mnemonic_hist : Option (List (String × ℤ))
  string_refs : List String
  callgraph : Option CallGraph
  control_flow : Option ControlFlow
  numeric_consts : List ℤ
  function_primes : List ℤ
  name : Option String

/-- Embedding of a well-formed record as a Python dict with all keys. -/
def toPy (r : FuncRec) : PyFunc :=
  { function_hash := some r.function_hash
    basic_block_count := some r.basic_block_count
    instruction_count := some r.instruction_count
    edge_count := some r.edge_count
    mnemonic_hist := some r.mnemonic_hist
    string_refs := r.string_refs
    callgraph := r.callgraph
    control_flow := r.control_flow
    numeric_consts := r.numeric_consts
    function_primes := r.function_primes
    name := r.name }

/-- `d[key]`: returns the value or raises (errors) when the key is absent. -/
def getKey {α : Type} (o : Option α) : Except Unit α :=
  match o with
  | some a => .ok a
  | none => .error ()

/-- A count-ratio category on dict inputs, with Python's left-to-right
short-circuit: `func2`'s key is only read when `func1`'s count is
positive. -/
def count_step (label : String) (w : ℝ) (o1 o2 : Option ℤ) (st : SimState) :
    Except Unit SimState := do
  let c1 ← getKey o1
  if 0 < c1 then do
    let c2 ← getKey o2
    pure (if 0 < c2 then
      ⟨st.score + w * int_ratio_sim c1 c2, st.weight + w,
        st.techs ++ [(label, w * int_ratio_sim c1 c2)]⟩
      else st)
  else pure st

/-- The histogram category on dict inputs, with the short-circuit of
`if func1["mnemonic_hist"] and func2["mnemonic_hist"]`. -/
def hist_step (o1 o2 : Option (List (String × ℤ))) (st : SimState) :
    Except Unit SimState := do
  let m1 ← getKey o1
  if m1 ≠ [] then do
    let m2 ← getKey o2
    pure (if m2 ≠ [] then
      ⟨st.score + 8 * calculate_histogram_similarity m1 m2, st.weight + 8,
        st.techs ++ [("Mnemonic Histogram", 8 * calculate_histogram_similarity m1 m2)]⟩
      else st)
  else pure st

/-- The body of `_calculate_similarity_original` (lines 374-544) on a dict
input: any missing required key aborts with an error, mirroring a Python
`KeyError` escaping to the handler of lines 546-548. -/
def calculate_similarity_original_body (j : ℝ) (d1 d2 : PyFunc) :
    Except Unit (ℝ × String) := do
  let h1 ← getKey d1.function_hash
  let h2 ← getKey d2.function_hash
  let st := cat_hash h1 h2 ⟨0, 0, []⟩
  let st ← count_step "Basic Block Count" 2 d1.basic_block_count d2.basic_block_count st
  let st ← count_step "Instruction Count" 2 d1.instruction_count d2.instruction_count st
  let st ← count_step "Edge Count" 1.5 d1.edge_count d2.edge_count st
  let st ← hist_step d1.mnemonic_hist d2.mnemonic_hist st
  let st := cat_strings d1.string_refs d2.string_refs st
  let st := cat_callgraph d1.callgraph d2.callgraph st
  let st := cat_control_flow d1.control_flow d2.control_flow st
  let st := cat_consts d1.numeric_consts d2.numeric_consts st
  let st := cat_primes d1.function_primes d2.function_primes st
  let n1 ← getKey d1.name
  let n2 ← getKey d2.name
  let st := cat_name n1 n2 st
  pure (finalize_score j st)

/-- `_calculate_similarity_original` with its `try/except` (lines 380,
546-548): an exception inside the body yields `(0.0, "Error")`. -/
def calculate_similarity_original (j : ℝ) (d1 d2 : PyFunc) : ℝ × String :=
  match calculate_similarity_original_body j d1 d2 with
  | .ok r => r
  | .error _ => (0, "Error")

/-- A feature record produced by `_extract_binary_features` (lines 166-172,
179-190). -/
structure Feat where
  size : ℤ
  basic_block_count : ℤ
  instruction_count : ℤ
  name : String
  address : ℕ
  structural_hash : ℤ
  instruction_hash : ℤ
deriving Repr, DecidableEq

/-- The dictionaries built by `_calculate_similarity` (lines 328-354):
histogram, strings, constants and primes are empty, callgraph counts are
zero, control flow uses the block count, density 0.5 and connectivity
`True`, and the edge count is approximated by the block count. -/
def to_original_format (f : Feat) : FuncRec :=
  { function_hash := f.structural_hash
    basic_block_count := f.basic_block_count
    instruction_count := f.instruction_count
    edge_count := f.basic_block_count
    mnemonic_hist := []
    string_refs := []
    callgraph := some ⟨0, 0⟩
    control_flow := some ⟨some f.basic_block_count, some 0.5, some true⟩
    numeric_consts := []
    function_primes := []
    name := f.name }

/-- `_calculate_similarity` (lines 324-372): build the dicts, run the
original scorer, keep the score; its own `try/except` returns `0.0` when
the inner computation raises. -/
def calculate_similarity (j : ℝ) (f1 f2 : Feat) : ℝ :=
  match calculate_similarity_original_body j (toPy (to_original_format f1))
      (toPy (to_original_format f2)) with
  | .ok r => r.1
  | .error _ => 0

/-- State of `_match_functions`: the insertion-ordered `matched_funcs`
dict `addr1 ↦ (addr2, score)`, the `used_funcs2` set, and the position in
the jitter stream (one value consumed per scorer call). -/
structure MState where
  matched : List (ℕ × ℕ × ℝ)
  used : List ℕ
  jidx : ℕ

/-- One candidate of the phase-1 inner scan (lines 257-270): skip consumed
B-functions, keep only nonzero equal structural hashes, score with the
+0.10 bonus capped at 1.0, keep a strictly-improving candidate; every
scored candidate advances the jitter stream. -/
def scan1_step (j : ℕ → ℝ) (f1 : Feat) (used : List ℕ)
    (acc : Option ℕ × ℝ × ℕ) (p : ℕ × Feat) : Option ℕ × ℝ × ℕ :=
  if p.1 ∈ used then acc
  else if f1.structural_hash = p.2.structural_hash ∧ f1.structural_hash ≠ 0 then
    if min 1 (calculate_similarity (j acc.2.2) f1 p.2 + 0.1) > acc.2.1 then
      (some p.1, min 1 (calculate_similarity (j acc.2.2) f1 p.2 + 0.1), acc.2.2 + 1)
    else (acc.1, acc.2.1, acc.2.2 + 1)
  else acc

/-- Inner candidate scan of phase 1 over the whole B-mapping. -/
def phase1_scan (j : ℕ → ℝ) (f1 : Feat) (used : List ℕ) (fs2 : List (ℕ × Feat))
    (acc : Option ℕ × ℝ × ℕ) : Option ℕ × ℝ × ℕ :=
  fs2.foldl (scan1_step j f1 used) acc

/-- One candidate of the phase-2 inner scan (lines 284-296): identical
non-placeholder names, +0.05 bonus capped at 1.0. -/
def scan2_step (j : ℕ → ℝ) (f1 : Feat) (used : List ℕ)
    (acc : Option ℕ × ℝ × ℕ) (p : ℕ × Feat) : Option ℕ × ℝ × ℕ :=
  if p.1 ∈ used then acc
  else if f1.name = p.2.name ∧ f1.name ≠ "sub_*" then
    if min 1 (calculate_similarity (j acc.2.2) f1 p.2 + 0.05) > acc.2.1 then
      (some p.1, min 1 (calculate_similarity (j acc.2.2) f1 p.2 + 0.05), acc.2.2 + 1)
    else (acc.1, acc.2.1, acc.2.2 + 1)
  else acc

/-- Inner candidate scan of phase 2 over the whole B-mapping. -/
def phase2_scan (j : ℕ → ℝ) (f1 : Feat) (used : List ℕ) (fs2 : List (ℕ × Feat))
    (acc : Option ℕ × ℝ × ℕ) : Option ℕ × ℝ × ℕ :=
  fs2.foldl (scan2_step j f1 used) acc

/-- One candidate of the phase-3 inner scan (lines 310-318): every
unconsumed candidate is scored, kept when strictly better and above 0.4. -/
def scan3_step (j : ℕ → ℝ) (f1 : Feat) (used : List ℕ)
    (acc : Option ℕ × ℝ × ℕ) (p : ℕ × Feat) : Option ℕ × ℝ × ℕ :=
  if p.1 ∈ used then acc
  else
    if calculate_similarity (j acc.2.2) f1 p.2 > acc.2.1 ∧
        calculate_similarity (j acc.2.2) f1 p.2 > 0.4 then
      (some p.1, calculate_similarity (j acc.2.2) f1 p.2, acc.2.2 + 1)
    else (acc.1, acc.2.1, acc.2.2 + 1)

/-- Inner candidate scan of phase 3 over the whole B-mapping. -/
def phase3_scan (j : ℕ → ℝ) (f1 : Feat) (used : List ℕ) (fs2 : List (ℕ × Feat))
    (acc : Option ℕ × ℝ × ℕ) : Option ℕ × ℝ × ℕ :=
  fs2.foldl (scan3_step j f1 used) acc

/-- Commit of a scanned best candidate: Python's
`if best_match and best_score > threshold` — `best_match` must be truthy,
so `None` and address `0` both fail the test. -/
def commit_best (st : MState) (a1 : ℕ) (res : Option ℕ × ℝ × ℕ) (threshold : ℝ) : MState :=
  match res.1 with
  | some b =>
    if b ≠ 0 ∧ res.2.1 > threshold then
      ⟨st.matched ++ [(a1, b, res.2.1)], st.used ++ [b], res.2.2⟩
    else ⟨st.matched, st.used, res.2.2⟩
  | none => ⟨st.matched, st.used, res.2.2⟩

/-- One phase-1 iteration of the outer loop (lines 250-274). -/
def phase1_step (j : ℕ → ℝ) (fs2 : List (ℕ × Feat)) (st : MState) (a : ℕ × Feat) : MState :=
  commit_best st a.1 (phase1_scan j a.2 st.used fs2 (none, 0, st.jidx)) 0.6

/-- Keys of the `matched_funcs` dict. -/
def matchedKeys (st : MState) : List ℕ :=
  st.matched.map (fun m => m.1)

/-- One phase-2 iteration (lines 277-300): already-matched A-functions are
skipped. -/
def phase2_step (j : ℕ → ℝ) (fs2 : List (ℕ × Feat)) (st : MState) (a : ℕ × Feat) : MState :=
  if a.1 ∈ matchedKeys st then st
  else commit_best st a.1 (phase2_scan j a.2 st.used fs2 (none, 0, st.jidx)) 0.5

/-- One phase-3 iteration (lines 303-322). -/
def phase3_step (j : ℕ → ℝ) (fs2 : List (ℕ × Feat)) (st : MState) (a : ℕ × Feat) : MState :=
  if a.1 ∈ matchedKeys st then st
  else commit_best st a.1 (phase3_scan j a.2 st.used fs2 (none, 0, st.jidx)) 0.4

/-- `_match_functions` (lines 244-322) without cancellation: the three
greedy phases over the two insertion-ordered feature mappings, returning
the `matched_funcs` association list. -/
def match_functions (j : ℕ → ℝ) (fs1 fs2 : List (ℕ × Feat)) : List (ℕ × ℕ × ℝ) :=
  let st1 := fs1.foldl (phase1_step j fs2) ⟨[], [], 0⟩
  let st2 := fs1.foldl (phase2_step j fs2) st1
  let st3 := fs1.foldl (phase3_step j fs2) st2
  st3.matched

/-- A produced match as assembled in `BinaryDiffTask.run` (lines 93-99). -/
structure FunctionMatch where
  address_a : ℕ
  address_b : ℕ
  similarity : ℝ
  confidence : ℝ
  technique : String

/-- `_get_match_technique` (lines 630-633): the simplified implementation
labels every match `"Structural"`. -/
def get_match_technique (addr1 addr2 : ℕ) : String :=
  "Structural"

/-- The result-conversion loop of `BinaryDiffTask.run` (lines 76-100):
look up the technique and boost the confidence for structural and name
matches. -/
def build_results (m : List (ℕ × ℕ × ℝ)) : List FunctionMatch :=
  m.map fun q =>
    let technique := get_match_technique q.1 q.2.1
    let confidence : ℝ :=
      if technique = "Structural" then min 1 (q.2.2 + 0.02)
      else if technique = "Name" then min 1 (q.2.2 + 0.03)
      else q.2.2
    ⟨q.1, q.2.1, q.2.2, confidence, technique⟩

/-! ### Bridge between the dict-level body and the pure accumulation -/

theorem count_step_some (label : String) (w : ℝ) (a b : ℤ) (st : SimState) :
    count_step label w (some a) (some b) st = .ok (cat_count label w a b st) := by
  by_cases h1 : 0 < a <;> by_cases h2 : 0 < b <;>
    simp [count_step, cat_count, getKey, h1, h2, bind, Except.bind, pure, Except.pure]

theorem hist_step_some (m1 m2 : List (String × ℤ)) (st : SimState) :
    hist_step (some m1) (some m2) st = .ok (cat_hist m1 m2 st) := by
  by_cases h1 : m1 = [] <;> by_cases h2 : m2 = [] <;>
    simp [hist_step, cat_hist, getKey, h1, h2, bind, Except.bind, pure, Except.pure]

/-- On well-formed input no key is missing, and the monadic body reduces to
the pure category chain. -/
theorem body_toPy (j : ℝ) (r1 r2 : FuncRec) :
    calculate_similarity_original_body j (toPy r1) (toPy r2) =
      .ok (finalize_score j (similarity_parts r1 r2)) := by
  simp [calculate_similarity_original_body, toPy, getKey, similarity_parts,
    count_step_some, hist_step_some, bind, Except.bind, pure, Except.pure]

theorem calculate_similarity_original_toPy (j : ℝ) (r1 r2 : FuncRec) :
    calculate_similarity_original j (toPy r1) (toPy r2) =
      finalize_score j (similarity_parts r1 r2) := by
  simp [calculate_similarity_original, body_toPy]

theorem calculate_similarity_eq (j : ℝ) (f1 f2 : Feat) :
    calculate_similarity j f1 f2 =
      (finalize_score j (similarity_parts (to_original_format f1) (to_original_format f2))).1 := by
  simp [calculate_similarity, body_toPy]

/-! ### Basic facts about the sub-similarities -/

theorem int_ratio_sim_self (a : ℤ) : int_ratio_sim a a = 1 := by
  simp [int_ratio_sim]

theorem int_ratio_sim_comm (a b : ℤ) : int_ratio_sim a b = int_ratio_sim b a := by
  rw [int_ratio_sim, int_ratio_sim, abs_sub_comm, max_comm a b]

theorem calculate_set_similarity_self {α : Type} [DecidableEq α] (s : Finset α) :
    calculate_set_similarity s s = 1 := by
  rcases eq_or_ne s ∅ with h | h
  · simp [calculate_set_similarity, h]
  · have hcard : 0 < s.card := Finset.card_pos.2 (Finset.nonempty_iff_ne_empty.2 h)
    have hne : ((s.card : ℝ)) ≠ 0 := by exact_mod_cast hcard.ne'
    simp only [calculate_set_similarity, h, and_self, if_false, Finset.inter_self,
      Finset.union_self, hcard, if_true]
    exact div_self hne

theorem calculate_set_similarity_comm {α : Type} [DecidableEq α] (s1 s2 : Finset α) :
    calculate_set_similarity s1 s2 = calculate_set_similarity s2 s1 := by
  rw [calculate_set_similarity, calculate_set_similarity, Finset.inter_comm, Finset.union_comm]
  exact if_congr and_comm rfl rfl

theorem histMagSq_nonneg (m : List (String × ℤ)) : 0 ≤ histMagSq m :=
  Finset.sum_nonneg (fun k _ => mul_self_nonneg _)

theorem calculate_histogram_similarity_self (m : List (String × ℤ))
    (h : histMagSq m ≠ 0) : calculate_histogram_similarity m m = 1 := by
  have hpos : (0 : ℝ) < (histMagSq m : ℝ) := by
    have := histMagSq_nonneg m
    exact_mod_cast lt_of_le_of_ne this (Ne.symm h)
  have hsqrt : Real.sqrt (histMagSq m : ℝ) ≠ 0 :=
    ne_of_gt (Real.sqrt_pos.2 hpos)
  simp only [calculate_histogram_similarity, Finset.union_self]
  rw [show (Finset.sum (histKeys m) fun k => histGet m k * histGet m k) = histMagSq m from rfl,
    if_neg (by rw [or_self]; exact hsqrt), Real.mul_self_sqrt hpos.le]
  exact div_self (ne_of_gt hpos)

theorem calculate_histogram_similarity_comm (m1 m2 : List (String × ℤ)) :
    calculate_histogram_similarity m1 m2 = calculate_histogram_similarity m2 m1 := by
  simp only [calculate_histogram_similarity]
  rw [Finset.union_comm (histKeys m2) (histKeys m1)]
  have hdot : (Finset.sum (histKeys m1 ∪ histKeys m2) fun k => histGet m2 k * histGet m1 k) =
      Finset.sum (histKeys m1 ∪ histKeys m2) fun k => histGet m1 k * histGet m2 k :=
    Finset.sum_congr rfl (fun k _ => mul_comm _ _)
  rw [hdot]
  split_ifs with h1 h2 h2
  · rfl
  · exact absurd h1.symm (by tauto)
  · exact absurd h2.symm (by tauto)
  · rw [mul_comm]

theorem calculate_prime_similarity_self (p : List ℤ) :
    calculate_prime_similarity p p = 1 := by
  rcases eq_or_ne p [] with h | h
  · simp [calculate_prime_similarity, h]
  · simp [calculate_prime_similarity, h, calculate_set_similarity_self]
    norm_num

theorem calculate_prime_similarity_comm (p1 p2 : List ℤ) :
    calculate_prime_similarity p1 p2 = calculate_prime_similarity p2 p1 := by
  rcases eq_or_ne p1 [] with h1 | h1
  · rcases eq_or_ne p2 [] with h2 | h2 <;> simp [calculate_prime_similarity, h1, h2]
  rcases eq_or_ne p2 [] with h2 | h2
  · simp [calculate_prime_similarity, h1, h2]
  simp only [calculate_prime_similarity, h1, h2, false_and, and_false, if_false,
    false_or, or_false, ite_false]
  have hmp : min 5 (min p2.length p1.length) = min 5 (min p1.length p2.length) := by
    rw [min_comm p2.length]
  rw [hmp]
  have hJ : calculate_set_similarity p2.toFinset p1.toFinset =
      calculate_set_similarity p1.toFinset p2.toFinset := calculate_set_similarity_comm _ _
  have habs : |(p2.length : ℤ) - (p1.length : ℤ)| = |(p1.length : ℤ) - (p2.length : ℤ)| :=
    abs_sub_comm _ _
  have hmax : max p2.length p1.length = max p1.length p2.length := max_comm _ _
  rw [hJ, habs, hmax]
  have hprod : ∀ q1 q2 : ℤ,
      (if q2 = q1 then (1 : ℝ) else if q2 = 0 ∨ q1 = 0 then 0
        else ((min q2 q1 : ℤ) : ℝ) / ((max q2 q1 : ℤ) : ℝ)) =
      (if q1 = q2 then (1 : ℝ) else if q1 = 0 ∨ q2 = 0 then 0
        else ((min q1 q2 : ℤ) : ℝ) / ((max q1 q2 : ℤ) : ℝ)) := by
    intro q1 q2
    rw [min_comm q2 q1, max_comm q2 q1]
    exact if_congr eq_comm rfl (if_congr or_comm rfl rfl)
  rw [hprod]

/-! ### Symmetry of the scorer (category by category) -/

theorem cat_hash_comm (h1 h2 : ℤ) (st : SimState) :
    cat_hash h1 h2 st = cat_hash h2 h1 st := by
  rw [cat_hash, cat_hash]
  have : (if h1 = h2 then (1 : ℝ) else 0) = (if h2 = h1 then (1 : ℝ) else 0) :=
    if_congr eq_comm rfl rfl
  rw [this]

theorem cat_count_comm (label : String) (w : ℝ) (c1 c2 : ℤ) (st : SimState) :
    cat_count label w c1 c2 st = cat_count label w c2 c1 st := by
  rw [cat_count, cat_count, int_ratio_sim_comm]
  exact if_congr and_comm rfl rfl

theorem cat_hist_comm (m1 m2 : List (String × ℤ)) (st : SimState) :
    cat_hist m1 m2 st = cat_hist m2 m1 st := by
  rw [cat_hist, cat_hist, calculate_histogram_similarity_comm]
  exact if_congr and_comm rfl rfl

theorem cat_strings_comm (s1 s2 : List String) (st : SimState) :
    cat_strings s1 s2 st = cat_strings s2 s1 st := by
  rw [cat_strings, cat_strings, calculate_set_similarity_comm]
  exact if_congr and_comm rfl rfl

theorem cat_callgraph_comm (c1 c2 : Option CallGraph) (st : SimState) :
    cat_callgraph c1 c2 st = cat_callgraph c2 c1 st := by
  cases c1 with
  | none => cases c2 <;> rfl
  | some g1 =>
    cases c2 with
    | none => rfl
    | some g2 =>
      simp only [cat_callgraph]
      rw [int_ratio_sim_comm g1.call_count, int_ratio_sim_comm g1.caller_count]
      exact if_congr or_comm rfl rfl

theorem cf_node_part_comm (o1 o2 : Option ℤ) : cf_node_part o1 o2 = cf_node_part o2 o1 := by
  cases o1 <;> cases o2 <;> simp only [cf_node_part]
  rw [int_ratio_sim_comm]
  exact if_congr and_comm rfl rfl

theorem cf_node_weight_comm (o1 o2 : Option ℤ) : cf_node_weight o1 o2 = cf_node_weight o2 o1 := by
  cases o1 <;> cases o2 <;> simp only [cf_node_weight]
  exact if_congr and_comm rfl rfl

theorem cf_dens_part_comm (o1 o2 : Option ℝ) : cf_dens_part o1 o2 = cf_dens_part o2 o1 := by
  cases o1 with
  | none => cases o2 <;> rfl
  | some d1 =>
    cases o2 with
    | none => rfl
    | some d2 =>
      simp only [cf_dens_part]
      rw [abs_sub_comm d1 d2, max_comm d1 d2]

theorem cf_dens_weight_comm (o1 o2 : Option ℝ) : cf_dens_weight o1 o2 = cf_dens_weight o2 o1 := by
  cases o1 <;> cases o2 <;> simp only [cf_dens_weight]

theorem cf_conn_part_comm (o1 o2 : Option Bool) : cf_conn_part o1 o2 = cf_conn_part o2 o1 := by
  cases o1 <;> cases o2 <;> simp only [cf_conn_part]
  exact if_congr eq_comm rfl rfl

theorem cf_conn_weight_comm (o1 o2 : Option Bool) : cf_conn_weight o1 o2 = cf_conn_weight o2 o1 := by
  cases o1 <;> cases o2 <;> simp only [cf_conn_weight]

theorem cat_control_flow_comm (c1 c2 : Option ControlFlow) (st : SimState) :
    cat_control_flow c1 c2 st = cat_control_flow c2 c1 st := by
  cases c1 with
  | none => cases c2 <;> rfl
  | some f1 =>
    cases c2 with
    | none => rfl
    | some f2 =>
      simp only [cat_control_flow]
      rw [cf_node_part_comm, cf_node_weight_comm, cf_dens_part_comm, cf_dens_weight_comm,
        cf_conn_part_comm, cf_conn_weight_comm]

theorem cat_consts_comm (l1 l2 : List ℤ) (st : SimState) :
    cat_consts l1 l2 st = cat_consts l2 l1 st := by
  simp only [cat_consts]
  rw [calculate_set_similarity_comm ((l1.filter (fun x => x < 65536)).toFinset)]
  exact if_congr and_comm (if_congr or_comm rfl rfl) rfl

theorem cat_primes_comm (p1 p2 : List ℤ) (st : SimState) :
    cat_primes p1 p2 st = cat_primes p2 p1 st := by
  rw [cat_primes, cat_primes, calculate_prime_similarity_comm]
  exact if_congr and_comm rfl rfl

theorem cat_name_comm (n1 n2 : String) (st : SimState) :
    cat_name n1 n2 st = cat_name n2 n1 st := by
  rw [cat_name, cat_name]
  have : (if stripSynthetic (str_lower n1.data) = stripSynthetic (str_lower n2.data)
        then (1 : ℝ) else 0) =
      (if stripSynthetic (str_lower n2.data) = stripSynthetic (str_lower n1.data)
        then (1 : ℝ) else 0) :=
    if_congr eq_comm rfl rfl
  rw [this]
  exact if_congr (not_congr and_comm) rfl rfl

/-- The whole accumulation of `_calculate_similarity_original` is symmetric
in its two arguments: every category condition, sub-similarity and weight
is invariant under swapping the records. -/
theorem similarity_parts_comm (r1 r2 : FuncRec) :
    similarity_parts r1 r2 = similarity_parts r2 r1 := by
  rw [similarity_parts, similarity_parts, cat_hash_comm,
    cat_count_comm "Basic Block Count", cat_count_comm "Instruction Count",
    cat_count_comm "Edge Count", cat_hist_comm, cat_strings_comm, cat_callgraph_comm,
    cat_control_flow_comm, cat_consts_comm, cat_primes_comm, cat_name_comm]

/-- C4: for every pair of feature records the similarity score returned by
the scorer is symmetric (the jitter draw being the same for both calls):
every category condition, weight and sub-similarity formula is invariant
under swapping the two records. -/
theorem c4_score_symmetric (j : ℝ) (r1 r2 : FuncRec) :
    (calculate_similarity_original j (toPy r1) (toPy r2)).1 =
      (calculate_similarity_original j (toPy r2) (toPy r1)).1 := by
  rw [calculate_similarity_original_toPy, calculate_similarity_original_toPy,
    similarity_parts_comm]

/-! ### Reflexivity of the scorer -/

/-- Invariant carried through the category chain at a pair `(x, x)`:
every applicable category has contributed its full weight, and the hash
category has made the weight at least 10. -/
def DiagInv (st : SimState) : Prop := st.score = st.weight ∧ 10 ≤ st.weight

theorem cat_hash_init_diag (h : ℤ) : DiagInv (cat_hash h h ⟨0, 0, []⟩) := by
  constructor <;> simp [cat_hash]

theorem cat_count_diag (label : String) (w : ℝ) (hw : 0 ≤ w) (c : ℤ) (st : SimState)
    (hd : DiagInv st) : DiagInv (cat_count label w c c st) := by
  obtain ⟨h1, h2⟩ := hd
  by_cases hc : 0 < c
  · refine ⟨?_, ?_⟩
    · simp [cat_count, hc, int_ratio_sim_self, h1]
    · simp [cat_count, hc]
      linarith
  · refine ⟨?_, ?_⟩ <;> simp [cat_count, hc, h1, h2]

theorem cat_hist_diag (m : List (String × ℤ)) (hm : m ≠ [] → histMagSq m ≠ 0)
    (st : SimState) (hd : DiagInv st) : DiagInv (cat_hist m m st) := by
  obtain ⟨h1, h2⟩ := hd
  by_cases h : m = []
  · refine ⟨?_, ?_⟩ <;> simp [cat_hist, h, h1, h2]
  · refine ⟨?_, ?_⟩
    · simp [cat_hist, h, calculate_histogram_similarity_self m (hm h), h1]
    · simp [cat_hist, h]
      linarith

theorem cat_strings_diag (l : List String) (st : SimState) (hd : DiagInv st) :
    DiagInv (cat_strings l l st) := by
  obtain ⟨h1, h2⟩ := hd
  by_cases h : l = []
  · refine ⟨?_, ?_⟩ <;> simp [cat_strings, h, h1, h2]
  · have hs : calculate_set_similarity l.toFinset l.toFinset = 1 :=
      calculate_set_similarity_self _
    have hw12 : (if calculate_set_similarity l.toFinset l.toFinset > (0.8 : ℝ)
        then (12 : ℝ) else 7) = 12 := by
      rw [hs]; norm_num
    refine ⟨?_, ?_⟩
    · simp [cat_strings, h, hs, hw12, h1]
    · simp [cat_strings, h, hw12]
      linarith

theorem cat_callgraph_diag (c : Option CallGraph) (st : SimState) (hd : DiagInv st) :
    DiagInv (cat_callgraph c c st) := by
  obtain ⟨h1, h2⟩ := hd
  cases c with
  | none => exact ⟨h1, h2⟩
  | some g =>
    by_cases hc : 0 < g.call_count
    · refine ⟨?_, ?_⟩
      · simp [cat_callgraph, hc, int_ratio_sim_self, h1]
      · simp [cat_callgraph, hc]
        linarith
    · refine ⟨?_, ?_⟩ <;> simp [cat_callgraph, hc, h1, h2]

theorem cf_node_part_self (o : Option ℤ) : cf_node_part o o = cf_node_weight o o := by
  cases o with
  | none => rfl
  | some n => simp [cf_node_part, cf_node_weight, int_ratio_sim_self]

theorem cf_dens_part_self (o : Option ℝ) : cf_dens_part o o = cf_dens_weight o o := by
  cases o with
  | none => rfl
  | some d => simp [cf_dens_part, cf_dens_weight]

theorem cf_conn_part_self (o : Option Bool) : cf_conn_part o o = cf_conn_weight o o := by
  cases o with
  | none => rfl
  | some b => simp [cf_conn_part, cf_conn_weight]

theorem cf_node_weight_nonneg (o1 o2 : Option ℤ) : 0 ≤ cf_node_weight o1 o2 := by
  cases o1 <;> cases o2 <;> simp only [cf_node_weight, le_refl]
  split_ifs <;> norm_num

theorem cf_dens_weight_nonneg (o1 o2 : Option ℝ) : 0 ≤ cf_dens_weight o1 o2 := by
  cases o1 <;> cases o2 <;> simp [cf_dens_weight]

theorem cf_conn_weight_nonneg (o1 o2 : Option Bool) : 0 ≤ cf_conn_weight o1 o2 := by
  cases o1 <;> cases o2 <;> simp [cf_conn_weight]

theorem cat_control_flow_diag (c : Option ControlFlow) (st : SimState) (hd : DiagInv st) :
    DiagInv (cat_control_flow c c st) := by
  obtain ⟨h1, h2⟩ := hd
  cases c with
  | none => exact ⟨h1, h2⟩
  | some f =>
    have hn := cf_node_weight_nonneg f.node_count f.node_count
    have hdw := cf_dens_weight_nonneg f.density f.density
    have hcw := cf_conn_weight_nonneg f.is_connected f.is_connected
    refine ⟨?_, ?_⟩
    · simp only [cat_control_flow]
      rw [cf_node_part_self, cf_dens_part_self, cf_conn_part_self, h1]
    · simp only [cat_control_flow]
      linarith

theorem cat_consts_diag (l : List ℤ) (st : SimState) (hd : DiagInv st) :
    DiagInv (cat_consts l l st) := by
  obtain ⟨h1, h2⟩ := hd
  by_cases h : l = []
  · refine ⟨?_, ?_⟩ <;> simp [cat_consts, h, h1, h2]
  · by_cases hc : Finset.filter (fun x => x < 65536) l.toFinset = ∅
    · refine ⟨?_, ?_⟩ <;> simp [cat_consts, h, hc, h1, h2]
    · refine ⟨?_, ?_⟩
      · simp [cat_consts, h, hc, calculate_set_similarity_self, h1]
      · simp [cat_consts, h, hc]
        linarith

theorem cat_primes_diag (p : List ℤ) (st : SimState) (hd : DiagInv st) :
    DiagInv (cat_primes p p st) := by
  obtain ⟨h1, h2⟩ := hd
  by_cases h : p = []
  · refine ⟨?_, ?_⟩ <;> simp [cat_primes, h, h1, h2]
  · refine ⟨?_, ?_⟩
    · simp [cat_primes, h, calculate_prime_similarity_self, h1]
    · simp [cat_primes, h]
      linarith

theorem cat_name_diag (n : String) (st : SimState) (hd : DiagInv st) :
    DiagInv (cat_name n n st) := by
  obtain ⟨h1, h2⟩ := hd
  by_cases h : List.isPrefixOf "0x".data (stripSynthetic (str_lower n.data)) = true
  · refine ⟨?_, ?_⟩ <;> simp [cat_name, h, h1, h2]
  · refine ⟨?_, ?_⟩
    · simp [cat_name, h, h1]
    · simp [cat_name, h]
      linarith

/-- At a pair `(x, x)` with a non-degenerate histogram, every applicable
category contributes its full weight. -/
theorem similarity_parts_self (x : FuncRec)
    (hm : x.mnemonic_hist ≠ [] → histMagSq x.mnemonic_hist ≠ 0) :
    DiagInv (similarity_parts x x) := by
  rw [similarity_parts]
  exact cat_name_diag _ _ (cat_primes_diag _ _ (cat_consts_diag _ _
    (cat_control_flow_diag _ _ (cat_callgraph_diag _ _ (cat_strings_diag _ _
      (cat_hist_diag _ hm _ (cat_count_diag _ 1.5 (by norm_num) _ _
        (cat_count_diag _ 2 (by norm_num) _ _ (cat_count_diag _ 2 (by norm_num) _ _
          (cat_hash_init_diag _))))))))))

theorem finalize_diag (j : ℝ) (st : SimState) (h : DiagInv st) :
    (finalize_score j st).1 = max 0 (min 1 (1 + j)) := by
  obtain ⟨hsw, hw⟩ := h
  have hpos : (0 : ℝ) < st.weight := by linarith
  simp only [finalize_score, if_pos hpos, hsw, div_self (ne_of_gt hpos)]

/-- A feature record with every category populated identically on both
sides and non-degenerately. -/
def populatedRec : FuncRec :=
  { function_hash := 111
    basic_block_count := 5
    instruction_count := 40
    edge_count := 5
    mnemonic_hist := [("mov", 2)]
    string_refs := ["hello"]
    callgraph := some ⟨1, 1⟩
    control_flow := some ⟨some 5, some 0.5, some true⟩
    numeric_consts := [1]
    function_primes := [2]
    name := "main" }

theorem populatedRec_hist_magsq : histMagSq populatedRec.mnemonic_hist ≠ 0 := by
  simp [populatedRec, histMagSq, histKeys, histGet, List.lookup]

/-- C3 (amended): with all categories populated identically and a
non-degenerate histogram, scoring a record against itself yields the
clamp of `1 + jitter`; this equals 1.0 exactly when the drawn jitter is
nonnegative, and lies in [0.999, 1) for a negative draw. -/
theorem c3_self_score_amended (j : ℝ) (x : FuncRec)
    (hm : x.mnemonic_hist ≠ [] → histMagSq x.mnemonic_hist ≠ 0) :
    (calculate_similarity_original j (toPy x) (toPy x)).1 = max 0 (min 1 (1 + j)) := by
  rw [calculate_similarity_original_toPy]
  exact finalize_diag j _ (similarity_parts_self x hm)

theorem c3_self_score_amended_witness :
    (populatedRec.mnemonic_hist ≠ [] → histMagSq populatedRec.mnemonic_hist ≠ 0) ∧
    (calculate_similarity_original 0 (toPy populatedRec) (toPy populatedRec)).1 =
      max 0 (min 1 (1 + 0)) :=
  ⟨fun _ => populatedRec_hist_magsq,
    c3_self_score_amended 0 populatedRec (fun _ => populatedRec_hist_magsq)⟩

/-- C3 (counterexample): with the jitter drawn at `-0.001`, scoring a fully
populated record against itself gives `0.999`, not `1.0`: the random
jitter of line 530 breaks exact reflexivity. -/
theorem c3_self_score_counterexample :
    (calculate_similarity_original (-(1/1000)) (toPy populatedRec) (toPy populatedRec)).1 ≠ 1 := by
  rw [calculate_similarity_original_toPy,
    finalize_diag _ _ (similarity_parts_self populatedRec (fun _ => populatedRec_hist_magsq))]
  norm_num

/-! ### Boundary behaviour of the Jaccard and cosine sub-similarities -/

/-- C5 (counterexample): the cosine sub-similarity of two empty histograms
is `0.0`, not `1.0`: with no keys both magnitudes are zero and
`_calculate_histogram_similarity` takes its zero-magnitude early return. -/
theorem c5_boundary_counterexample :
    calculate_histogram_similarity [] [] = 0 ∧ (0 : ℝ) ≠ 1 := by
  constructor
  · simp [calculate_histogram_similarity, histKeys]
  · norm_num

/-- C5 (amended): the Jaccard sub-similarity is `1.0` for two empty
collections and `0.0` when exactly one side is empty; the cosine
sub-similarity is `0.0` whenever either histogram is empty — including
when both are empty, where it is `0.0` rather than `1.0`. -/
theorem c5_boundary_amended {α : Type} [DecidableEq α] (s : Finset α)
    (m : List (String × ℤ)) (hs : s ≠ ∅) :
    calculate_set_similarity (∅ : Finset α) ∅ = 1 ∧
    calculate_set_similarity s ∅ = 0 ∧
    calculate_set_similarity ∅ s = 0 ∧
    calculate_histogram_similarity m [] = 0 ∧
    calculate_histogram_similarity [] m = 0 := by
  have hcard : 0 < s.card := Finset.card_pos.2 (Finset.nonempty_iff_ne_empty.2 hs)
  refine ⟨by simp [calculate_set_similarity], ?_, ?_, ?_, ?_⟩
  · simp [calculate_set_similarity, hs, hcard]
  · simp [calculate_set_similarity, hs, hcard]
  · simp [calculate_histogram_similarity, histGet]
  · simp [calculate_histogram_similarity, histGet]

theorem c5_boundary_amended_witness :
    ({0} : Finset ℕ) ≠ ∅ ∧
    (calculate_set_similarity (∅ : Finset ℕ) ∅ = 1 ∧
      calculate_set_similarity ({0} : Finset ℕ) ∅ = 0 ∧
      calculate_set_similarity ∅ ({0} : Finset ℕ) = 0 ∧
      calculate_histogram_similarity [("mov", 2)] [] = 0 ∧
      calculate_histogram_similarity [] [("mov", 2)] = 0) :=
  ⟨by decide, c5_boundary_amended ({0} : Finset ℕ) [("mov", 2)] (by decide)⟩

/-! ### Dominant-technique selection -/

theorem cat_count_techs (label : String) (w : ℝ) (c1 c2 : ℤ) (st : SimState) :
    ∃ L, (cat_count label w c1 c2 st).techs = st.techs ++ L := by
  simp only [cat_count]
  split_ifs
  all_goals first
  | exact ⟨_, rfl⟩
  | exact ⟨[], (List.append_nil _).symm⟩

theorem cat_hist_techs (m1 m2 : List (String × ℤ)) (st : SimState) :
    ∃ L, (cat_hist m1 m2 st).techs = st.techs ++ L := by
  simp only [cat_hist]
  split_ifs
  all_goals first
  | exact ⟨_, rfl⟩
  | exact ⟨[], (List.append_nil _).symm⟩

theorem cat_strings_techs (s1 s2 : List String) (st : SimState) :
    ∃ L, (cat_strings s1 s2 st).techs = st.techs ++ L := by
  simp only [cat_strings]
  split_ifs
  all_goals first
  | exact ⟨_, rfl⟩
  | exact ⟨[], (List.append_nil _).symm⟩

theorem cat_callgraph_techs (c1 c2 : Option CallGraph) (st : SimState) :
    ∃ L, (cat_callgraph c1 c2 st).techs = st.techs ++ L := by
  cases c1 <;> cases c2 <;> simp only [cat_callgraph]
  case some.some g1 g2 =>
    split_ifs
    all_goals exact ⟨_, rfl⟩
  all_goals exact ⟨_, rfl⟩

theorem cat_control_flow_techs (c1 c2 : Option ControlFlow) (st : SimState) :
    ∃ L, (cat_control_flow c1 c2 st).techs = st.techs ++ L := by
  cases c1 <;> cases c2 <;> exact ⟨_, rfl⟩

theorem cat_consts_techs (l1 l2 : List ℤ) (st : SimState) :
    ∃ L, (cat_consts l1 l2 st).techs = st.techs ++ L := by
  simp only [cat_consts]
  split_ifs
  all_goals first
  | exact ⟨_, rfl⟩
  | exact ⟨[], (List.append_nil _).symm⟩

theorem cat_primes_techs (p1 p2 : List ℤ) (st : SimState) :
    ∃ L, (cat_primes p1 p2 st).techs = st.techs ++ L := by
  simp only [cat_primes]
  split_ifs
  all_goals first
  | exact ⟨_, rfl⟩
  | exact ⟨[], (List.append_nil _).symm⟩

theorem cat_name_techs (n1 n2 : String) (st : SimState) :
    ∃ L, (cat_name n1 n2 st).techs = st.techs ++ L := by
  simp only [cat_name]
  split_ifs
  all_goals first
  | exact ⟨_, rfl⟩
  | exact ⟨[], (List.append_nil _).symm⟩

/-- Transport a "the technique dict starts with entry `h`" fact through one
more category, since every category only appends. -/
theorem cat_techs_cons {f : SimState → SimState}
    (hf : ∀ st, ∃ L, (f st).techs = st.techs ++ L) (h : String × ℝ) (st : SimState)
    (hst : ∃ t, st.techs = h :: t) : ∃ t, (f st).techs = h :: t := by
  obtain ⟨t, ht⟩ := hst
  obtain ⟨L, hL⟩ := hf st
  exact ⟨t ++ L, by rw [hL, ht]; rfl⟩

/-- `technique_scores` always starts with the `"Hash Match"` entry, which
is inserted first (line 386) and worth its full weight exactly on hash
equality. -/
theorem similarity_parts_techs (r1 r2 : FuncRec) :
    ∃ L, (similarity_parts r1 r2).techs =
      ("Hash Match", 10 * (if r1.function_hash = r2.function_hash then (1 : ℝ) else 0)) :: L := by
  rw [similarity_parts]
  apply cat_techs_cons (cat_name_techs r1.name r2.name)
  apply cat_techs_cons (cat_primes_techs r1.function_primes r2.function_primes)
  apply cat_techs_cons (cat_consts_techs r1.numeric_consts r2.numeric_consts)
  apply cat_techs_cons (cat_control_flow_techs r1.control_flow r2.control_flow)
  apply cat_techs_cons (cat_callgraph_techs r1.callgraph r2.callgraph)
  apply cat_techs_cons (cat_strings_techs r1.string_refs r2.string_refs)
  apply cat_techs_cons (cat_hist_techs r1.mnemonic_hist r2.mnemonic_hist)
  apply cat_techs_cons (cat_count_techs "Edge Count" 1.5 r1.edge_count r2.edge_count)
  apply cat_techs_cons (cat_count_techs "Instruction Count" 2 r1.instruction_count r2.instruction_count)
  apply cat_techs_cons (cat_count_techs "Basic Block Count" 2 r1.basic_block_count r2.basic_block_count)
  exact ⟨[], by simp [cat_hash]⟩

theorem foldl_max_init_le (l : List (String × ℝ)) (b : ℝ) :
    b ≤ l.foldl (fun m p => max m p.2) b := by
  induction l generalizing b with
  | nil => exact le_refl b
  | cons p t ih => exact le_trans (le_max_left b p.2) (ih _)

theorem foldl_max_mem_le (l : List (String × ℝ)) (b : ℝ) (p : String × ℝ) (hp : p ∈ l) :
    p.2 ≤ l.foldl (fun m p => max m p.2) b := by
  induction l generalizing b with
  | nil => cases hp
  | cons q t ih =>
    rcases List.mem_cons.1 hp with rfl | hp2
    · exact le_trans (le_max_right b p.2) (foldl_max_init_le t _)
    · exact ih _ hp2

theorem firstArgmax_mem (t : String × ℝ) (rest : List (String × ℝ)) :
    firstArgmax t rest ∈ t :: rest := by
  induction rest generalizing t with
  | nil => simp [firstArgmax]
  | cons q l ih =>
    have hrw : firstArgmax t (q :: l) = firstArgmax (if q.2 > t.2 then q else t) l := rfl
    rw [hrw]
    rcases List.mem_cons.1 (ih (if q.2 > t.2 then q else t)) with h | h
    · rw [h]
      split_ifs
      · exact List.mem_cons_of_mem _ (List.mem_cons_self _ _)
      · exact List.mem_cons_self _ _
    · exact List.mem_cons_of_mem _ (List.mem_cons_of_mem _ h)

theorem firstArgmax_ge (t : String × ℝ) (rest : List (String × ℝ)) :
    ∀ p ∈ t :: rest, p.2 ≤ (firstArgmax t rest).2 := by
  induction rest generalizing t with
  | nil =>
    intro p hp
    rcases List.mem_cons.1 hp with rfl | hp2
    · exact le_refl _
    · cases hp2
  | cons q l ih =>
    intro p hp
    have hrw : firstArgmax t (q :: l) = firstArgmax (if q.2 > t.2 then q else t) l := rfl
    have hstep1 : t.2 ≤ (if q.2 > t.2 then q else t).2 := by
      split_ifs with h
      · exact le_of_lt h
      · exact le_refl _
    have hstep2 : q.2 ≤ (if q.2 > t.2 then q else t).2 := by
      split_ifs with h
      · exact le_refl _
      · exact le_of_not_lt h
    have hhead := ih (if q.2 > t.2 then q else t) _ (List.mem_cons_self _ _)
    rw [hrw]
    rcases List.mem_cons.1 hp with rfl | hp2
    · exact le_trans hstep1 hhead
    · rcases List.mem_cons.1 hp2 with rfl | hp3
      · exact le_trans hstep2 hhead
      · exact ih _ _ (List.mem_cons_of_mem _ hp3)

/-- Python `max(dict, key=dict.get)` returns the first key whose value is
maximal; with a unique strict maximizer that key wins. -/
theorem firstArgmax_unique (t : String × ℝ) (rest : List (String × ℝ)) (k : String) (v : ℝ)
    (hmem : (k, v) ∈ t :: rest) (hmax : ∀ p ∈ t :: rest, p.1 ≠ k → p.2 < v) :
    (firstArgmax t rest).1 = k := by
  by_contra hne
  have h1 := firstArgmax_mem t rest
  have h2 := hmax _ h1 hne
  have h3 := firstArgmax_ge t rest (k, v) hmem
  exact absurd (lt_of_le_of_lt h3 h2) (lt_irrefl _)

theorem dominant_technique_hash (v : ℝ) (L : List (String × ℝ)) (hv : 10 ≤ v) :
    dominant_technique (("Hash Match", v) :: L) = "Hash Match" := by
  have h0 : (0 : ℝ) < v := lt_of_lt_of_le (by norm_num) hv
  have hmax : (0 : ℝ) < L.foldl (fun m p => max m p.2) v :=
    lt_of_lt_of_le h0 (foldl_max_init_le L v)
  have hlk : (((("Hash Match", v) :: L).lookup "Hash Match").getD 0) = v := by
    simp [List.lookup]
  simp only [dominant_technique]
  rw [if_pos hmax, hlk, if_pos hv]

theorem dominant_technique_unique (t : String × ℝ) (L : List (String × ℝ)) (k : String) (v : ℝ)
    (hmem : (k, v) ∈ t :: L) (hv : 0 < v)
    (hmax : ∀ p ∈ t :: L, p.1 ≠ k → p.2 < v)
    (hhash : (((t :: L).lookup "Hash Match").getD 0) < 10) :
    dominant_technique (t :: L) = k := by
  have hvle : v ≤ L.foldl (fun m p => max m p.2) t.2 := by
    rcases List.mem_cons.1 hmem with h | h
    · rw [show t.2 = v from congrArg Prod.snd h.symm]
      exact foldl_max_init_le L v
    · exact foldl_max_mem_le L t.2 _ h
  simp only [dominant_technique]
  rw [if_pos (lt_of_lt_of_le hv hvle), if_neg (not_le.2 hhash)]
  exact firstArgmax_unique t L k v hmem hmax

/-- C8: the dominant technique is the unique category with the strictly
highest weighted contribution, except that an exact hash match (the hash
category at its full weight 10) always yields the `"Hash Match"` label
regardless of the other contributions. -/
theorem c8_dominant_technique (j : ℝ) (r1 r2 : FuncRec) :
    (r1.function_hash = r2.function_hash →
      (calculate_similarity_original j (toPy r1) (toPy r2)).2 = "Hash Match") ∧
    (∀ k v, (k, v) ∈ (similarity_parts r1 r2).techs → 0 < v →
      (∀ p ∈ (similarity_parts r1 r2).techs, p.1 ≠ k → p.2 < v) →
      r1.function_hash ≠ r2.function_hash →
      (calculate_similarity_original j (toPy r1) (toPy r2)).2 = k) := by
  rw [calculate_similarity_original_toPy]
  obtain ⟨L, hL⟩ := similarity_parts_techs r1 r2
  constructor
  · intro hh
    have hts : (similarity_parts r1 r2).techs = ("Hash Match", 10 * 1) :: L := by
      rw [hL, if_pos hh]
    simp only [finalize_score]
    rw [hts]
    have := dominant_technique_hash (10 * 1) L (by norm_num)
    exact this
  · intro k v hkm hv hmax hne
    have hts : (similarity_parts r1 r2).techs = ("Hash Match", 10 * 0) :: L := by
      rw [hL, if_neg hne]
    simp only [finalize_score]
    rw [hts] at hkm hmax ⊢
    apply dominant_technique_unique _ _ k v hkm hv hmax
    simp [List.lookup]

/-- A minimal record with structural hash 5 and name `"a"`. -/
def hashRecA : FuncRec := ⟨5, 0, 0, 0, [], [], none, none, [], [], "a"⟩

/-- A minimal record with structural hash 5 and name `"b"`. -/
def hashRecB : FuncRec := ⟨5, 0, 0, 0, [], [], none, none, [], [], "b"⟩

/-- A record with hash 1 and three basic blocks. -/
def bbRecA : FuncRec := ⟨1, 3, 0, 0, [], [], none, none, [], [], "a"⟩

/-- A record with hash 2 and three basic blocks. -/
def bbRecB : FuncRec := ⟨2, 3, 0, 0, [], [], none, none, [], [], "b"⟩

theorem bbRec_techs : (similarity_parts bbRecA bbRecB).techs =
    [("Hash Match", 0), ("Basic Block Count", 2), ("Callgraph", 0),
      ("Control Flow", 0), ("Name Similarity", 0)] := by
  have hpre : ¬(List.isPrefixOf "0x".data (stripSynthetic (str_lower ("a" : String).data)) ∧
      List.isPrefixOf "0x".data (stripSynthetic (str_lower ("b" : String).data))) := by decide
  have hab : ¬(stripSynthetic (str_lower ("a" : String).data) =
      stripSynthetic (str_lower ("b" : String).data)) := by decide
  simp only [similarity_parts, bbRecA, bbRecB, cat_hash, cat_count, cat_hist, cat_strings,
    cat_callgraph, cat_control_flow, cat_consts, cat_primes, cat_name, hpre, hab]
  norm_num [int_ratio_sim_self]

theorem c8_dominant_technique_witness :
    (hashRecA.function_hash = hashRecB.function_hash ∧
      (calculate_similarity_original 0 (toPy hashRecA) (toPy hashRecB)).2 = "Hash Match") ∧
    (("Basic Block Count", (2 : ℝ)) ∈ (similarity_parts bbRecA bbRecB).techs ∧
      (0 : ℝ) < 2 ∧
      (∀ p ∈ (similarity_parts bbRecA bbRecB).techs, p.1 ≠ "Basic Block Count" → p.2 < 2) ∧
      bbRecA.function_hash ≠ bbRecB.function_hash ∧
      (calculate_similarity_original 0 (toPy bbRecA) (toPy bbRecB)).2 = "Basic Block Count") := by
  have hmem : ("Basic Block Count", (2 : ℝ)) ∈ (similarity_parts bbRecA bbRecB).techs := by
    rw [bbRec_techs]
    simp
  have hlt : ∀ p ∈ (similarity_parts bbRecA bbRecB).techs,
      p.1 ≠ "Basic Block Count" → p.2 < 2 := by
    rw [bbRec_techs]
    intro p hp hne
    simp only [List.mem_cons, List.not_mem_nil, or_false] at hp
    rcases hp with rfl | rfl | rfl | rfl | rfl
    · norm_num
    · exact absurd rfl hne
    · norm_num
    · norm_num
    · norm_num
  refine ⟨⟨rfl, (c8_dominant_technique 0 hashRecA hashRecB).1 rfl⟩,
    hmem, by norm_num, hlt, by decide,
    (c8_dominant_technique 0 bbRecA bbRecB).2 "Basic Block Count" 2 hmem (by norm_num) hlt
      (by decide)⟩

/-! ### Error containment in the scorer -/

/-- C6: whenever the body of `_calculate_similarity_original` raises (here:
aborts with a `KeyError`-style error on a missing dictionary key), the
`try/except` of lines 546-548 returns `(0.0, "Error")` instead of
propagating, so a scoring fault never aborts the matching pass. -/
theorem c6_scoring_error_contained (j : ℝ) (d1 d2 : PyFunc) (e : Unit)
    (h : calculate_similarity_original_body j d1 d2 = .error e) :
    calculate_similarity_original j d1 d2 = (0, "Error") := by
  rw [calculate_similarity_original, h]

/-- A malformed scorer input: the `"name"` key is missing, so line 508
raises a `KeyError` after every earlier category has been processed or
skipped. -/
def badFunc : PyFunc := ⟨some 0, some 0, some 0, some 0, some [], [], none, none, [], [], none⟩

theorem c6_scoring_error_contained_witness :
    calculate_similarity_original_body 0 badFunc badFunc = .error () ∧
    calculate_similarity_original 0 badFunc badFunc = (0, "Error") := by
  have h : calculate_similarity_original_body 0 badFunc badFunc = .error () := by
    simp [calculate_similarity_original_body, count_step, hist_step, getKey, badFunc,
      cat_strings, cat_callgraph, cat_control_flow, cat_consts, cat_primes,
      bind, Except.bind, pure, Except.pure]
  exact ⟨h, c6_scoring_error_contained 0 badFunc badFunc () h⟩

/-! ### Matcher invariants -/

/-- Invariant of `_match_functions`: every matched B-address has been
recorded in `used_funcs2`, and both the A-side keys and the B-side values
of `matched_funcs` are pairwise distinct. -/
def MInv (st : MState) : Prop :=
  (∀ m ∈ st.matched, m.2.1 ∈ st.used) ∧
  (st.matched.map (fun m => m.1)).Nodup ∧
  (st.matched.map (fun m => m.2.1)).Nodup

theorem foldl_preserve {α β : Type} (f : α → β → α) (P : α → Prop)
    (hf : ∀ a b, P a → P (f a b)) : ∀ (l : List β) (a : α), P a → P (l.foldl f a) := by
  intro l
  induction l with
  | nil => intro a h; exact h
  | cons p t ih => intro a h; exact ih _ (hf a p h)

theorem scan1_step_not_used (j : ℕ → ℝ) (f1 : Feat) (used : List ℕ)
    (acc : Option ℕ × ℝ × ℕ) (p : ℕ × Feat)
    (hacc : ∀ b, acc.1 = some b → b ∉ used) :
    ∀ b, (scan1_step j f1 used acc p).1 = some b → b ∉ used := by
  intro b hb
  rw [scan1_step] at hb
  by_cases hm : p.1 ∈ used
  · rw [if_pos hm] at hb
    exact hacc b hb
  · rw [if_neg hm] at hb
    by_cases hc : f1.structural_hash = p.2.structural_hash ∧ f1.structural_hash ≠ 0
    · rw [if_pos hc] at hb
      by_cases hs : min 1 (calculate_similarity (j acc.2.2) f1 p.2 + 0.1) > acc.2.1
      · rw [if_pos hs] at hb
        have hpb : p.1 = b := by simpa using hb
        rw [← hpb]
        exact hm
      · rw [if_neg hs] at hb
        exact hacc b hb
    · rw [if_neg hc] at hb
      exact hacc b hb

theorem scan2_step_not_used (j : ℕ → ℝ) (f1 : Feat) (used : List ℕ)
    (acc : Option ℕ × ℝ × ℕ) (p : ℕ × Feat)
    (hacc : ∀ b, acc.1 = some b → b ∉ used) :
    ∀ b, (scan2_step j f1 used acc p).1 = some b → b ∉ used := by
  intro b hb
  rw [scan2_step] at hb
  by_cases hm : p.1 ∈ used
  · rw [if_pos hm] at hb
    exact hacc b hb
  · rw [if_neg hm] at hb
    by_cases hc : f1.name = p.2.name ∧ f1.name ≠ "sub_*"
    · rw [if_pos hc] at hb
      by_cases hs : min 1 (calculate_similarity (j acc.2.2) f1 p.2 + 0.05) > acc.2.1
      · rw [if_pos hs] at hb
        have hpb : p.1 = b := by simpa using hb
        rw [← hpb]
        exact hm
      · rw [if_neg hs] at hb
        exact hacc b hb
    · rw [if_neg hc] at hb
      exact hacc b hb

theorem scan3_step_not_used (j : ℕ → ℝ) (f1 : Feat) (used : List ℕ)
    (acc : Option ℕ × ℝ × ℕ) (p : ℕ × Feat)
    (hacc : ∀ b, acc.1 = some b → b ∉ used) :
    ∀ b, (scan3_step j f1 used acc p).1 = some b → b ∉ used := by
  intro b hb
  rw [scan3_step] at hb
  by_cases hm : p.1 ∈ used
  · rw [if_pos hm] at hb
    exact hacc b hb
  · rw [if_neg hm] at hb
    by_cases hs : calculate_similarity (j acc.2.2) f1 p.2 > acc.2.1 ∧
        calculate_similarity (j acc.2.2) f1 p.2 > 0.4
    · rw [if_pos hs] at hb
      have hpb : p.1 = b := by simpa using hb
      rw [← hpb]
      exact hm
    · rw [if_neg hs] at hb
      exact hacc b hb

theorem phase1_scan_not_used (j : ℕ → ℝ) (f1 : Feat) (used : List ℕ)
    (fs2 : List (ℕ × Feat)) (acc : Option ℕ × ℝ × ℕ)
    (hacc : ∀ b, acc.1 = some b → b ∉ used) :
    ∀ b, (phase1_scan j f1 used fs2 acc).1 = some b → b ∉ used := by
  rw [phase1_scan]
  exact foldl_preserve _ (fun a => ∀ b, a.1 = some b → b ∉ used)
    (fun a p ha => scan1_step_not_used j f1 used a p ha) fs2 acc hacc

theorem phase2_scan_not_used (j : ℕ → ℝ) (f1 : Feat) (used : List ℕ)
    (fs2 : List (ℕ × Feat)) (acc : Option ℕ × ℝ × ℕ)
    (hacc : ∀ b, acc.1 = some b → b ∉ used) :
    ∀ b, (phase2_scan j f1 used fs2 acc).1 = some b → b ∉ used := by
  rw [phase2_scan]
  exact foldl_preserve _ (fun a => ∀ b, a.1 = some b → b ∉ used)
    (fun a p ha => scan2_step_not_used j f1 used a p ha) fs2 acc hacc

theorem phase3_scan_not_used (j : ℕ → ℝ) (f1 : Feat) (used : List ℕ)
    (fs2 : List (ℕ × Feat)) (acc : Option ℕ × ℝ × ℕ)
    (hacc : ∀ b, acc.1 = some b → b ∉ used) :
    ∀ b, (phase3_scan j f1 used fs2 acc).1 = some b → b ∉ used := by
  rw [phase3_scan]
  exact foldl_preserve _ (fun a => ∀ b, a.1 = some b → b ∉ used)
    (fun a p ha => scan3_step_not_used j f1 used a p ha) fs2 acc hacc

theorem commit_best_inv (st : MState) (a1 : ℕ) (res : Option ℕ × ℝ × ℕ) (θ : ℝ)
    (hinv : MInv st) (hbest : ∀ b, res.1 = some b → b ∉ st.used)
    (hkey : a1 ∉ matchedKeys st) : MInv (commit_best st a1 res θ) := by
  obtain ⟨hused, hka, hkb⟩ := hinv
  cases hb : res.1 with
  | none => simpa [commit_best, hb] using ⟨hused, hka, hkb⟩
  | some b =>
    by_cases hc : b ≠ 0 ∧ res.2.1 > θ
    · have hbu : b ∉ st.used := hbest b hb
      have hbv : b ∉ st.matched.map (fun m => m.2.1) := by
        intro hmem
        obtain ⟨m, hm, hmb⟩ := List.mem_map.1 hmem
        exact hbu (hmb ▸ hused m hm)
      refine ⟨?_, ?_, ?_⟩ <;> simp only [commit_best, hb, if_pos hc]
      · intro m hm
        rcases List.mem_append.1 hm with h | h
        · exact List.mem_append.2 (Or.inl (hused m h))
        · simp at h
          simp [h]
      · rw [List.map_append]
        simp only [List.map_cons, List.map_nil]
        rw [List.nodup_append]
        refine ⟨hka, List.nodup_singleton _, ?_⟩
        intro x hx hx1
        simp at hx1
        rw [hx1] at hx
        exact hkey (by simpa [matchedKeys] using hx)
      · rw [List.map_append]
        simp only [List.map_cons, List.map_nil]
        rw [List.nodup_append]
        refine ⟨hkb, List.nodup_singleton _, ?_⟩
        intro x hx hx1
        simp at hx1
        rw [hx1] at hx
        exact hbv hx
    · simpa [commit_best, hb, if_neg hc] using ⟨hused, hka, hkb⟩

theorem commit_best_matched (st : MState) (a1 : ℕ) (res : Option ℕ × ℝ × ℕ) (θ : ℝ) :
    (commit_best st a1 res θ).matched = st.matched ∨
      ∃ b, (commit_best st a1 res θ).matched = st.matched ++ [(a1, b, res.2.1)] := by
  cases hb : res.1 with
  | none => exact Or.inl (by simp [commit_best, hb])
  | some b =>
    by_cases hc : b ≠ 0 ∧ res.2.1 > θ
    · exact Or.inr ⟨b, by simp [commit_best, hb, hc]⟩
    · exact Or.inl (by simp [commit_best, hb, hc])

theorem commit_best_used_mono (st : MState) (a1 : ℕ) (res : Option ℕ × ℝ × ℕ) (θ : ℝ) :
    ∀ b ∈ st.used, b ∈ (commit_best st a1 res θ).used := by
  intro b hb
  cases hr : res.1 with
  | none => simpa [commit_best, hr] using hb
  | some b2 =>
    by_cases hc : b2 ≠ 0 ∧ res.2.1 > θ
    · simp [commit_best, hr, hc]
      exact Or.inl hb
    · simpa [commit_best, hr, hc] using hb

/-- During phase 1 the invariant is preserved provided the remaining
A-addresses are fresh (no `addr1 in matched_funcs` test exists in phase 1;
freshness comes from the dict-key uniqueness of `features1`). -/
theorem phase1_fold_inv (j : ℕ → ℝ) (fs2 : List (ℕ × Feat)) :
    ∀ (l : List (ℕ × Feat)) (st : MState), MInv st →
      (l.map Prod.fst).Nodup → (∀ a ∈ l.map Prod.fst, a ∉ matchedKeys st) →
      MInv (l.foldl (phase1_step j fs2) st) := by
  intro l
  induction l with
  | nil => intro st h _ _; exact h
  | cons p t ih =>
    intro st hinv hnodup hfresh
    rw [List.foldl_cons]
    have hp : p.1 ∉ matchedKeys st := hfresh p.1 (by simp)
    have hstep : MInv (phase1_step j fs2 st p) :=
      commit_best_inv st p.1 _ _ hinv
        (phase1_scan_not_used j p.2 st.used fs2 _ (by intro b h; cases h)) hp
    refine ih _ hstep (by simpa using hnodup.of_cons) ?_
    intro a ha
    have hane : a ≠ p.1 := by
      intro h
      rw [h] at ha
      exact (List.nodup_cons.1 (by simpa using hnodup)).1 ha
    have hold : a ∉ matchedKeys st := hfresh a (by simp [ha])
    rcases commit_best_matched st p.1 (phase1_scan j p.2 st.used fs2 (none, 0, st.jidx)) 0.6
      with h | ⟨b, h⟩
    · simpa [phase1_step, matchedKeys, h] using hold
    · simp only [phase1_step, matchedKeys, h, List.map_append]
      intro hmem
      rcases List.mem_append.1 hmem with hx | hx
      · exact hold (by simpa [matchedKeys] using hx)
      · simp at hx
        exact hane hx

theorem phase2_fold_inv (j : ℕ → ℝ) (fs2 : List (ℕ × Feat)) :
    ∀ (l : List (ℕ × Feat)) (st : MState), MInv st →
      MInv (l.foldl (phase2_step j fs2) st) := by
  intro l
  induction l with
  | nil => intro st h; exact h
  | cons p t ih =>
    intro st hinv
    rw [List.foldl_cons]
    by_cases hk : p.1 ∈ matchedKeys st
    · exact ih _ (by simpa [phase2_step, hk] using hinv)
    · refine ih _ ?_
      have := commit_best_inv st p.1 (phase2_scan j p.2 st.used fs2 (none, 0, st.jidx)) 0.5
        hinv (phase2_scan_not_used j p.2 st.used fs2 _ (by intro b h; cases h)) hk
      simpa [phase2_step, hk] using this

theorem phase3_fold_inv (j : ℕ → ℝ) (fs2 : List (ℕ × Feat)) :
    ∀ (l : List (ℕ × Feat)) (st : MState), MInv st →
      MInv (l.foldl (phase3_step j fs2) st) := by
  intro l
  induction l with
  | nil => intro st h; exact h
  | cons p t ih =>
    intro st hinv
    rw [List.foldl_cons]
    by_cases hk : p.1 ∈ matchedKeys st
    · exact ih _ (by simpa [phase3_step, hk] using hinv)
    · refine ih _ ?_
      have := commit_best_inv st p.1 (phase3_scan j p.2 st.used fs2 (none, 0, st.jidx)) 0.4
        hinv (phase3_scan_not_used j p.2 st.used fs2 _ (by intro b h; cases h)) hk
      simpa [phase3_step, hk] using this

/-- C1: for every pair of input feature mappings (with the dict invariant
that the A-side keys are unique) and every jitter stream, the produced
mapping is partial-bijective: no A-address is matched twice and no
B-address is assigned to two different A-addresses. -/
theorem c1_matching_partial_bijective (j : ℕ → ℝ) (fs1 fs2 : List (ℕ × Feat))
    (h : (fs1.map Prod.fst).Nodup) :
    ((match_functions j fs1 fs2).map (fun m => m.1)).Nodup ∧
    ((match_functions j fs1 fs2).map (fun m => m.2.1)).Nodup := by
  have h0 : MInv ⟨[], [], 0⟩ := by
    refine ⟨?_, List.nodup_nil, List.nodup_nil⟩
    intro m hm
    cases hm
  have h1 := phase1_fold_inv j fs2 fs1 ⟨[], [], 0⟩ h0 h
    (by intro a _ hmem; simp [matchedKeys] at hmem)
  have h2 := phase2_fold_inv j fs2 fs1 _ h1
  have h3 := phase3_fold_inv j fs2 fs1 _ h2
  exact ⟨h3.2.1, h3.2.2⟩

/-- Every match in `matched_funcs` carries a score strictly above 0.4. -/
def ScoreInv (st : MState) : Prop := ∀ m ∈ st.matched, (0.4 : ℝ) < m.2.2

theorem commit_best_scores (st : MState) (a1 : ℕ) (res : Option ℕ × ℝ × ℕ) (θ : ℝ)
    (hθ : (0.4 : ℝ) ≤ θ) (h : ScoreInv st) : ScoreInv (commit_best st a1 res θ) := by
  cases hb : res.1 with
  | none => simpa [commit_best, hb] using h
  | some b =>
    by_cases hc : b ≠ 0 ∧ res.2.1 > θ
    · intro m hm
      simp only [commit_best, hb, if_pos hc] at hm
      rcases List.mem_append.1 hm with hx | hx
      · exact h m hx
      · simp at hx
        rw [hx]
        exact lt_of_le_of_lt hθ hc.2
    · simpa [commit_best, hb, if_neg hc] using h

theorem phase1_step_scores (j : ℕ → ℝ) (fs2 : List (ℕ × Feat)) (st : MState)
    (p : ℕ × Feat) (h : ScoreInv st) : ScoreInv (phase1_step j fs2 st p) :=
  commit_best_scores st p.1 _ 0.6 (by norm_num) h

theorem phase2_step_scores (j : ℕ → ℝ) (fs2 : List (ℕ × Feat)) (st : MState)
    (p : ℕ × Feat) (h : ScoreInv st) : ScoreInv (phase2_step j fs2 st p) := by
  by_cases hk : p.1 ∈ matchedKeys st
  · simpa [phase2_step, hk] using h
  · have := commit_best_scores st p.1 (phase2_scan j p.2 st.used fs2 (none, 0, st.jidx)) 0.5
      (by norm_num) h
    simpa [phase2_step, hk] using this

theorem phase3_step_scores (j : ℕ → ℝ) (fs2 : List (ℕ × Feat)) (st : MState)
    (p : ℕ × Feat) (h : ScoreInv st) : ScoreInv (phase3_step j fs2 st p) := by
  by_cases hk : p.1 ∈ matchedKeys st
  · simpa [phase3_step, hk] using h
  · have := commit_best_scores st p.1 (phase3_scan j p.2 st.used fs2 (none, 0, st.jidx)) 0.4
      (by norm_num) h
    simpa [phase3_step, hk] using this

/-- C10: every match committed by any of the three phases has a similarity
score strictly greater than 0.4: the phase thresholds 0.6, 0.5 and 0.4 are
all at least 0.4 and commits require strict improvement over them. -/
theorem c10_all_scores_above_threshold (j : ℕ → ℝ) (fs1 fs2 : List (ℕ × Feat)) :
    ∀ m ∈ match_functions j fs1 fs2, (0.4 : ℝ) < m.2.2 := by
  have h0 : ScoreInv ⟨[], [], 0⟩ := by
    intro m hm
    cases hm
  have h1 := foldl_preserve (phase1_step j fs2) ScoreInv
    (fun st p h => phase1_step_scores j fs2 st p h) fs1 _ h0
  have h2 := foldl_preserve (phase2_step j fs2) ScoreInv
    (fun st p h => phase2_step_scores j fs2 st p h) fs1 _ h1
  have h3 := foldl_preserve (phase3_step j fs2) ScoreInv
    (fun st p h => phase3_step_scores j fs2 st p h) fs1 _ h2
  exact h3

/-! ### The end-to-end hash-exact scenario -/

/-- The all-zero jitter stream (one possible sequence of random draws). -/
def jZero : ℕ → ℝ := fun _ => 0

/-- Binary A of the end-to-end scenario: `main` at 0x1000, size 200,
5 basic blocks, 40 instructions, structural hash 111. -/
def featMainA : Feat := ⟨200, 5, 40, "main", 4096, 111, 0⟩

/-- Binary B of the end-to-end scenario: the identical function at 0x2000. -/
def featMainB : Feat := ⟨200, 5, 40, "main", 8192, 111, 0⟩

/-- The two scenario functions produce identical scorer inputs (the wrapper
ignores size and address), so the reflexivity analysis applies: the full
similarity is the clamp of `1 + jitter`. -/
theorem calc_sim_main (x : ℝ) :
    calculate_similarity x featMainA featMainB = max 0 (min 1 (1 + x)) := by
  rw [calculate_similarity_eq]
  rw [show to_original_format featMainB = to_original_format featMainA from rfl]
  exact finalize_diag x _ (similarity_parts_self _ (fun h => absurd rfl h))

/-- With any jitter draw bounded by 0.001, the phase-1 score of the
scenario pair is exactly 1.0: the base similarity is at least 0.999 and the
+0.10 hash bonus saturates the cap. -/
theorem scenario_phase1_score (j : ℕ → ℝ) (hj : ∀ n, |j n| ≤ 1 / 1000) :
    min 1 (calculate_similarity (j 0) featMainA featMainB + 0.1) = 1 := by
  rw [calc_sim_main]
  have hb := abs_le.1 (hj 0)
  have h1 : (0.999 : ℝ) ≤ min 1 (1 + j 0) := by
    apply le_min (by norm_num)
    linarith [hb.1]
  have h2 : (0.999 : ℝ) ≤ max 0 (min 1 (1 + j 0)) := le_trans h1 (le_max_right _ _)
  apply min_eq_left
  linarith

/-- The full matching pass on the scenario: phase 1 commits the single
match at score 1.0 and the later phases skip the already-matched
A-function. -/
theorem match_main_run (j : ℕ → ℝ) (hj : ∀ n, |j n| ≤ 1 / 1000) :
    match_functions j [(4096, featMainA)] [(8192, featMainB)] = [(4096, 8192, 1)] := by
  have hs := scenario_phase1_score j hj
  have hscan : phase1_scan j featMainA [] [(8192, featMainB)] (none, 0, 0) =
      (some 8192, 1, 1) := by
    rw [phase1_scan, List.foldl_cons, List.foldl_nil, scan1_step]
    rw [if_neg (by simp), if_pos ⟨rfl, by decide⟩]
    rw [show (none, (0 : ℝ), 0).2.2 = 0 from rfl, hs]
    rw [if_pos (by norm_num)]
  have hstep1 : List.foldl (phase1_step j [(8192, featMainB)]) ⟨[], [], 0⟩
      [(4096, featMainA)] = ⟨[(4096, 8192, 1)], [8192], 1⟩ := by
    rw [List.foldl_cons, List.foldl_nil, phase1_step]
    show commit_best ⟨[], [], 0⟩ 4096
      (phase1_scan j featMainA [] [(8192, featMainB)] (none, 0, 0)) 0.6 = _
    rw [hscan, commit_best]
    simp only []
    rw [if_pos (by norm_num)]
    rfl
  rw [match_functions, hstep1]
  have hstep2 : List.foldl (phase2_step j [(8192, featMainB)])
      ⟨[(4096, 8192, 1)], [8192], 1⟩ [(4096, featMainA)] =
      ⟨[(4096, 8192, 1)], [8192], 1⟩ := by
    rw [List.foldl_cons, List.foldl_nil, phase2_step, if_pos (by simp [matchedKeys])]
  rw [hstep2]
  rw [List.foldl_cons, List.foldl_nil, phase3_step, if_pos (by simp [matchedKeys])]

/-- C9 (counterexample): on the scenario input the single produced match is
labelled `"Structural"`, not the scorer's hash-match label `"Hash Match"`:
`_get_match_technique` (lines 630-633) is a placeholder that labels every
match `"Structural"`. -/
theorem c9_scenario_counterexample :
    build_results (match_functions jZero [(4096, featMainA)] [(8192, featMainB)]) =
      [⟨4096, 8192, 1, 1, "Structural"⟩] ∧ "Structural" ≠ "Hash Match" := by
  constructor
  · rw [match_main_run jZero (fun n => by norm_num [jZero])]
    simp only [build_results, List.map_cons, List.map_nil, get_match_technique]
    norm_num
  · decide

/-- C9 (amended): for the end-to-end scenario and any bounded jitter
stream, the pass produces exactly one match with `address_a = 0x1000`,
`address_b = 0x2000`, similarity 1.0 (≥ 0.95) — but its technique is the
fixed label `"Structural"`, not the hash-match label. -/
theorem c9_scenario_amended (j : ℕ → ℝ) (hj : ∀ n, |j n| ≤ 1 / 1000) :
    build_results (match_functions j [(4096, featMainA)] [(8192, featMainB)]) =
      [⟨4096, 8192, 1, 1, "Structural"⟩] ∧ (0.95 : ℝ) ≤ 1 := by
  constructor
  · rw [match_main_run j hj]
    simp only [build_results, List.map_cons, List.map_nil, get_match_technique]
    norm_num
  · norm_num

theorem c9_scenario_amended_witness :
    (∀ n, |jZero n| ≤ 1 / 1000) ∧
    (build_results (match_functions jZero [(4096, featMainA)] [(8192, featMainB)]) =
      [⟨4096, 8192, 1, 1, "Structural"⟩] ∧ (0.95 : ℝ) ≤ 1) :=
  ⟨fun n => by norm_num [jZero], c9_scenario_amended jZero (fun n => by norm_num [jZero])⟩

theorem c1_matching_partial_bijective_witness :
    (([(4096, featMainA)].map Prod.fst).Nodup) ∧
    (((match_functions jZero [(4096, featMainA)] [(8192, featMainB)]).map
        (fun m => m.1)).Nodup ∧
      ((match_functions jZero [(4096, featMainA)] [(8192, featMainB)]).map
        (fun m => m.2.1)).Nodup) :=
  ⟨by decide, c1_matching_partial_bijective jZero [(4096, featMainA)] [(8192, featMainB)]
    (by decide)⟩

theorem c10_all_scores_above_threshold_witness :
    (4096, 8192, (1 : ℝ)) ∈ match_functions jZero [(4096, featMainA)] [(8192, featMainB)] ∧
    (0.4 : ℝ) < 1 := by
  have hmem : (4096, 8192, (1 : ℝ)) ∈
      match_functions jZero [(4096, featMainA)] [(8192, featMainB)] := by
    rw [match_main_run jZero (fun n => by norm_num [jZero])]
    simp
  exact ⟨hmem, c10_all_scores_above_threshold jZero [(4096, featMainA)]
    [(8192, featMainB)] (4096, 8192, (1 : ℝ)) hmem⟩

/-! ### Jitter nondeterminism across two runs -/

/-- A jitter stream drawing 0.001 every time. -/
def jSmall : ℕ → ℝ := fun _ => 1 / 1000

/-- A function with one block, one instruction, name `"main"`, hash 1. -/
def featNameA : Feat := ⟨1, 1, 1, "main", 1, 1, 0⟩

/-- The same shape at address 2 but with a different structural hash. -/
def featNameB : Feat := ⟨1, 1, 1, "main", 2, 2, 0⟩

theorem parts_name : similarity_parts (to_original_format featNameA)
    (to_original_format featNameB) =
    ⟨37 / 2, 57 / 2, [("Hash Match", 0), ("Basic Block Count", 2), ("Instruction Count", 2),
      ("Edge Count", 1.5), ("Callgraph", 0), ("Control Flow", 12), ("Name Similarity", 1)]⟩ := by
  have hpre : ¬(List.isPrefixOf "0x".data (stripSynthetic (str_lower ("main" : String).data)) ∧
      List.isPrefixOf "0x".data (stripSynthetic (str_lower ("main" : String).data))) := by decide
  simp only [similarity_parts, to_original_format, featNameA, featNameB, cat_hash, cat_count,
    cat_hist, cat_strings, cat_callgraph, cat_control_flow, cat_consts, cat_primes, cat_name,
    cf_node_part, cf_node_weight, cf_dens_part, cf_dens_weight, cf_conn_part, cf_conn_weight,
    hpre, int_ratio_sim_self]
  norm_num

theorem calc_sim_name (x : ℝ) :
    calculate_similarity x featNameA featNameB = max 0 (min 1 (37 / 57 + x)) := by
  rw [calculate_similarity_eq, parts_name, finalize_score]
  simp only []
  rw [if_pos (by norm_num : (0 : ℝ) < 57 / 2)]
  norm_num

/-- The phase-2 run on the name-equal pair: with a nonnegative jitter draw
of at most 0.001, the single match is committed in phase 2 at the exact
score `37/57 + jitter + 0.05`. -/
theorem match_name_run (j : ℕ → ℝ) (h0 : 0 ≤ j 0) (h1 : j 0 ≤ 1 / 1000) :
    match_functions j [(1, featNameA)] [(2, featNameB)] =
      [(1, 2, 37 / 57 + j 0 + 0.05)] := by
  have hcalc : calculate_similarity (j 0) featNameA featNameB = 37 / 57 + j 0 := by
    rw [calc_sim_name, min_eq_right (by linarith : 37 / 57 + j 0 ≤ 1),
      max_eq_right (by linarith : (0 : ℝ) ≤ 37 / 57 + j 0)]
  have hs : min 1 (calculate_similarity (j 0) featNameA featNameB + 0.05) =
      37 / 57 + j 0 + 0.05 := by
    rw [hcalc]
    exact min_eq_right (by norm_num; linarith)
  have hscan1 : phase1_scan j featNameA [] [(2, featNameB)] (none, 0, 0) = (none, 0, 0) := by
    rw [phase1_scan, List.foldl_cons, List.foldl_nil, scan1_step]
    rw [if_neg (by simp), if_neg (by decide)]
  have hscan2 : phase2_scan j featNameA [] [(2, featNameB)] (none, 0, 0) =
      (some 2, 37 / 57 + j 0 + 0.05, 1) := by
    rw [phase2_scan, List.foldl_cons, List.foldl_nil, scan2_step]
    rw [if_neg (by simp), if_pos ⟨rfl, by decide⟩]
    rw [show ((none : Option ℕ), (0 : ℝ), 0).2.2 = 0 from rfl, hs]
    rw [if_pos (by norm_num; linarith)]
  have hstep1 : List.foldl (phase1_step j [(2, featNameB)]) ⟨[], [], 0⟩ [(1, featNameA)] =
      ⟨[], [], 0⟩ := by
    rw [List.foldl_cons, List.foldl_nil, phase1_step]
    show commit_best ⟨[], [], 0⟩ 1
      (phase1_scan j featNameA [] [(2, featNameB)] (none, 0, 0)) 0.6 = _
    rw [hscan1, commit_best]
  have hstep2 : List.foldl (phase2_step j [(2, featNameB)]) ⟨[], [], 0⟩ [(1, featNameA)] =
      ⟨[(1, 2, 37 / 57 + j 0 + 0.05)], [2], 1⟩ := by
    rw [List.foldl_cons, List.foldl_nil, phase2_step, if_neg (by simp [matchedKeys])]
    show commit_best ⟨[], [], 0⟩ 1
      (phase2_scan j featNameA [] [(2, featNameB)] (none, 0, 0)) 0.5 = _
    rw [hscan2, commit_best]
    simp only []
    rw [if_pos ⟨by norm_num, by norm_num; linarith⟩]
    simp
  rw [match_functions, hstep1, hstep2]
  rw [List.foldl_cons, List.foldl_nil, phase3_step, if_pos (by simp [matchedKeys])]

/-- C2 (counterexample): two runs of the matching pass on identical inputs
and with no cancellation disagree when the random jitter draws differ: the
run drawing 0 stores score `37/57 + 0.05`, the run drawing 0.001 stores
`37/57 + 0.001 + 0.05`. -/
theorem c2_determinism_counterexample :
    match_functions jZero [(1, featNameA)] [(2, featNameB)] ≠
      match_functions jSmall [(1, featNameA)] [(2, featNameB)] := by
  rw [match_name_run jZero (by norm_num [jZero]) (by norm_num [jZero]),
    match_name_run jSmall (by norm_num [jSmall]) (by norm_num [jSmall])]
  intro h
  simp only [jZero, jSmall, List.cons.injEq, Prod.mk.injEq, and_true, true_and] at h
  norm_num at h

/-- C2 (amended): the matcher is deterministic once the jitter draws are
fixed: two runs on identical inputs with identical jitter streams and no
cancellation produce identical match sets and scores; only the random
jitter of line 530 differentiates two runs. -/
theorem c2_deterministic_modulo_jitter (fs1 fs2 : List (ℕ × Feat)) (j1 j2 : ℕ → ℝ)
    (h : ∀ n, j1 n = j2 n) :
    match_functions j1 fs1 fs2 = match_functions j2 fs1 fs2 := by
  rw [funext h]

theorem c2_deterministic_modulo_jitter_witness :
    (∀ n, jZero n = jZero n) ∧
    match_functions jZero [(1, featNameA)] [(2, featNameB)] =
      match_functions jZero [(1, featNameA)] [(2, featNameB)] :=
  ⟨fun _ => rfl, c2_deterministic_modulo_jitter [(1, featNameA)] [(2, featNameB)]
    jZero jZero (fun _ => rfl)⟩

/-! ### Phase 1 against its claimed description -/

/-- The candidate set described by the claim: unconsumed B-functions whose
structural hash is nonzero and equal to the A-function's. -/
def phase1_claim_filter (f1 : Feat) (used : List ℕ) (fs2 : List (ℕ × Feat)) :
    List (ℕ × Feat) :=
  fs2.filter (fun p =>
    decide (p.1 ∉ used ∧ f1.structural_hash = p.2.structural_hash ∧ f1.structural_hash ≠ 0))

/-- Best-candidate selection over the filtered list: full similarity plus
the fixed +0.10 bonus capped at 1.0, keeping the first strictly best
candidate, one jitter draw per scored candidate. -/
def phase1_claim_best (j : ℕ → ℝ) (f1 : Feat) (cands : List (ℕ × Feat)) (k : ℕ) :
    Option ℕ × ℝ × ℕ :=
  cands.foldl
    (fun acc p =>
      if min 1 (calculate_similarity (j acc.2.2) f1 p.2 + 0.1) > acc.2.1 then
        (some p.1, min 1 (calculate_similarity (j acc.2.2) f1 p.2 + 0.1), acc.2.2 + 1)
      else (acc.1, acc.2.1, acc.2.2 + 1))
    (none, 0, k)

/-- Phase 1 as the claim states it: commit exactly when the best score
exceeds 0.6. -/
def phase1_claim_step (j : ℕ → ℝ) (fs2 : List (ℕ × Feat)) (st : MState) (a : ℕ × Feat) :
    MState :=
  let res := phase1_claim_best j a.2 (phase1_claim_filter a.2 st.used fs2) st.jidx
  match res.1 with
  | some b =>
    if res.2.1 > 0.6 then ⟨st.matched ++ [(a.1, b, res.2.1)], st.used ++ [b], res.2.2⟩
    else ⟨st.matched, st.used, res.2.2⟩
  | none => ⟨st.matched, st.used, res.2.2⟩

/-- Phase 1 as the claim must be amended: the code's Python truthiness test
`if best_match and best_score > 0.6` additionally requires the best
candidate's address to be nonzero. -/
def phase1_claim_step_amended (j : ℕ → ℝ) (fs2 : List (ℕ × Feat)) (st : MState)
    (a : ℕ × Feat) : MState :=
  commit_best st a.1 (phase1_claim_best j a.2 (phase1_claim_filter a.2 st.used fs2) st.jidx)
    0.6

theorem foldl_filter {α β : Type} (P : β → Bool) (f : α → β → α) :
    ∀ (l : List β) (a : α),
      (l.filter P).foldl f a = l.foldl (fun acc x => if P x then f acc x else acc) a := by
  intro l
  induction l with
  | nil => intro a; rfl
  | cons x t ih =>
    intro a
    by_cases h : P x
    · rw [List.filter_cons_of_pos h, List.foldl_cons, List.foldl_cons, if_pos h, ih]
    · rw [List.filter_cons_of_neg (by simpa using h), List.foldl_cons, if_neg (by simpa using h),
        ih]

theorem scan1_step_eq (j : ℕ → ℝ) (f1 : Feat) (used : List ℕ) :
    scan1_step j f1 used = fun acc p =>
      if (decide (p.1 ∉ used ∧ f1.structural_hash = p.2.structural_hash ∧
          f1.structural_hash ≠ 0) : Bool) then
        (if min 1 (calculate_similarity (j acc.2.2) f1 p.2 + 0.1) > acc.2.1 then
          (some p.1, min 1 (calculate_similarity (j acc.2.2) f1 p.2 + 0.1), acc.2.2 + 1)
        else (acc.1, acc.2.1, acc.2.2 + 1))
      else acc := by
  funext acc p
  rw [scan1_step]
  by_cases hm : p.1 ∈ used
  · rw [if_pos hm, if_neg (by simp [hm])]
  · rw [if_neg hm]
    by_cases hc : f1.structural_hash = p.2.structural_hash ∧ f1.structural_hash ≠ 0
    · rw [if_pos hc]
      conv_rhs => rw [if_pos (show (decide (p.1 ∉ used ∧
        f1.structural_hash = p.2.structural_hash ∧ f1.structural_hash ≠ 0) = true) from
        by simp only [decide_eq_true_eq]; exact ⟨hm, hc.1, hc.2⟩)]
    · rw [if_neg hc, if_neg (by simpa [hm] using hc)]

/-- The phase-1 inner scan is exactly best-candidate selection over the
claim's filtered candidate set. -/
theorem phase1_scan_claim (j : ℕ → ℝ) (f1 : Feat) (used : List ℕ) (fs2 : List (ℕ × Feat))
    (k : ℕ) :
    phase1_scan j f1 used fs2 (none, 0, k) =
      phase1_claim_best j f1 (phase1_claim_filter f1 used fs2) k := by
  rw [phase1_claim_best, phase1_claim_filter, foldl_filter, phase1_scan, scan1_step_eq]

/-- C7 (amended): for each unmatched A-function, phase 1 considers exactly
the unconsumed B-functions with nonzero equal structural hash, scores each
with full similarity plus +0.10 capped at 1.0, keeps the first best-scoring
candidate, and commits exactly when the best score exceeds 0.6 AND the best
candidate's address is nonzero (Python truthiness of `best_match`). -/
theorem c7_phase1_hash_exact_amended (j : ℕ → ℝ) (fs2 : List (ℕ × Feat)) (st : MState)
    (a : ℕ × Feat) : phase1_step j fs2 st a = phase1_claim_step_amended j fs2 st a := by
  rw [phase1_step, phase1_claim_step_amended, phase1_scan_claim]

/-- Binary B's scenario function placed at address 0. -/
def featZeroB : Feat := ⟨200, 5, 40, "main", 0, 111, 0⟩

theorem calc_sim_main_zero (x : ℝ) :
    calculate_similarity x featMainA featZeroB = max 0 (min 1 (1 + x)) := by
  rw [calculate_similarity_eq]
  rw [show to_original_format featZeroB = to_original_format featMainA from rfl]
  exact finalize_diag x _ (similarity_parts_self _ (fun h => absurd rfl h))

theorem calc_sim_main_zero_jZero (n : ℕ) :
    calculate_similarity (jZero n) featMainA featZeroB = 1 := by
  rw [show jZero n = 0 from rfl, calc_sim_main_zero]
  norm_num

/-- C7 (counterexample): with the identical scenario function placed at
B-address 0, the claim's phase-1 description commits the match (best score
1.0 > 0.6), but the matching pass produces no match at all: address 0 is
falsy in Python, so `if best_match and best_score > 0.6` fails in every
phase. -/
theorem c7_phase1_counterexample :
    phase1_claim_step jZero [(0, featZeroB)] ⟨[], [], 0⟩ (4096, featMainA) =
      ⟨[(4096, 0, 1)], [0], 1⟩ ∧
    match_functions jZero [(4096, featMainA)] [(0, featZeroB)] = [] := by
  have hs1 : min 1 (calculate_similarity (jZero 0) featMainA featZeroB + 0.1) = 1 := by
    rw [calc_sim_main_zero_jZero]
    norm_num
  have hbest : phase1_claim_best jZero featMainA
      (phase1_claim_filter featMainA [] [(0, featZeroB)]) 0 = (some 0, 1, 1) := by
    rw [phase1_claim_filter]
    rw [List.filter_cons_of_pos (by decide)]
    rw [show List.filter _ ([] : List (ℕ × Feat)) = [] from rfl]
    rw [phase1_claim_best, List.foldl_cons, List.foldl_nil]
    rw [show ((none : Option ℕ), (0 : ℝ), 0).2.2 = 0 from rfl, hs1]
    rw [if_pos (by norm_num)]
  constructor
  · simp only [phase1_claim_step, hbest]
    rw [if_pos (by norm_num)]
    simp
  · have hscan1 : phase1_scan jZero featMainA [] [(0, featZeroB)] (none, 0, 0) =
        (some 0, 1, 1) := by
      rw [phase1_scan_claim, hbest]
    have hs2 : min 1 (calculate_similarity (jZero 1) featMainA featZeroB + 0.05) = 1 := by
      rw [show jZero 1 = 0 from rfl, calc_sim_main_zero]
      norm_num
    have hscan2 : phase2_scan jZero featMainA [] [(0, featZeroB)] (none, 0, 1) =
        (some 0, 1, 2) := by
      rw [phase2_scan, List.foldl_cons, List.foldl_nil, scan2_step]
      rw [if_neg (by simp), if_pos ⟨rfl, by decide⟩]
      rw [show ((none : Option ℕ), (0 : ℝ), 1).2.2 = 1 from rfl, hs2]
      rw [if_pos (by norm_num)]
    have hscan3 : phase3_scan jZero featMainA [] [(0, featZeroB)] (none, 0, 2) =
        (some 0, 1, 3) := by
      rw [phase3_scan, List.foldl_cons, List.foldl_nil, scan3_step]
      rw [if_neg (by simp)]
      rw [show ((none : Option ℕ), (0 : ℝ), 2).2.2 = 2 from rfl, calc_sim_main_zero_jZero]
      rw [if_pos ⟨by norm_num, by norm_num⟩]
    have hstep1 : List.foldl (phase1_step jZero [(0, featZeroB)]) ⟨[], [], 0⟩
        [(4096, featMainA)] = ⟨[], [], 1⟩ := by
      rw [List.foldl_cons, List.foldl_nil, phase1_step]
      show commit_best ⟨[], [], 0⟩ 4096
        (phase1_scan jZero featMainA [] [(0, featZeroB)] (none, 0, 0)) 0.6 = _
      rw [hscan1, commit_best]
      simp only []
      rw [if_neg (by simp)]
    have hstep2 : List.foldl (phase2_step jZero [(0, featZeroB)]) ⟨[], [], 1⟩
        [(4096, featMainA)] = ⟨[], [], 2⟩ := by
      rw [List.foldl_cons, List.foldl_nil, phase2_step, if_neg (by simp [matchedKeys])]
      show commit_best ⟨[], [], 1⟩ 4096
        (phase2_scan jZero featMainA [] [(0, featZeroB)] (none, 0, 1)) 0.5 = _
      rw [hscan2, commit_best]
      simp only []
      rw [if_neg (by simp)]
    have hstep3 : List.foldl (phase3_step jZero [(0, featZeroB)]) ⟨[], [], 2⟩
        [(4096, featMainA)] = ⟨[], [], 3⟩ := by
      rw [List.foldl_cons, List.foldl_nil, phase3_step, if_neg (by simp [matchedKeys])]
      show commit_best ⟨[], [], 2⟩ 4096
        (phase3_scan jZero featMainA [] [(0, featZeroB)] (none, 0, 2)) 0.4 = _
      rw [hscan3, commit_best]
      simp only []
      rw [if_neg (by simp)]
    rw [match_functions, hstep1, hstep2, hstep3]

end

end RustDiff
